import Mathlib

/-!
Shallow embedding of the IR processing, validation and correction engine of
`src/pipeline/IRProcessor.py` (classes `IRSyntaxFixer`, `IRValidator`,
`IRCorrector`), together with the parts of the Python runtime the code leans
on (`json.loads` / `json.dump`, `math.isclose`, the `math` module attribute
lookup, the Python operators `==` and `in`, truthiness).

Python values are modelled by the mutual inductive family `PyVal` / `PyList`
/ `PyDict`; Python floats by `FloatV`, a four-way split into NaN, the two
infinities, and finite values carried as exact rationals (every Python float
is a dyadic rational, so `ℚ` embeds all of them exactly; the claims are about
comparison and bookkeeping logic, not about rounding of target arithmetic,
which stays inside the opaque target function).
-/

set_option allowUnsafeReducibility true

set_option maxRecDepth 100000

attribute [local semireducible] Rat.mul Rat.add Rat.div Rat.sub Rat.neg Rat.inv Rat.normalize

namespace IRProc

/-- Model of a Python `float`: NaN, +inf, -inf, or a finite value as an exact
rational. -/
inductive FloatV where
  | nan : FloatV
  | inf : FloatV
  | ninf : FloatV
  | fin : ℚ → FloatV
deriving DecidableEq, Repr

mutual

/-- Model of the Python values that flow through `IRProcessor.py`: the JSON
universe (None / bool / int / float / str / list / dict with string keys)
plus `complex`, which the target function may return.  Dict keys are strings
because every dict in play is produced by `json.loads`, by a JSON-shaped
literal in the source, or by `call.get("kwargs", {})`. -/
inductive PyVal where
  | vnone : PyVal
  | vbool : Bool → PyVal
  | vint : ℤ → PyVal
  | vfloat : FloatV → PyVal
  | vstr : String → PyVal
  | vcomplex : FloatV → FloatV → PyVal
  | vlist : PyList → PyVal
  | vdict : PyDict → PyVal
deriving DecidableEq, Repr

/-- A Python list of `PyVal`. -/
inductive PyList where
  | nil : PyList
  | cons : PyVal → PyList → PyList
deriving DecidableEq, Repr

/-- A Python dict with string keys, in insertion order. -/
inductive PyDict where
  | nil : PyDict
  | cons : String → PyVal → PyDict → PyDict
deriving DecidableEq, Repr

end

namespace FloatV

/-- Behaviour of `math.isnan`. -/
def isnan : FloatV → Bool
  | nan => true
  | _ => false

/-- Behaviour of `math.isinf`. -/
def isinf : FloatV → Bool
  | inf => true
  | ninf => true
  | _ => false

/-- Behaviour of `math.isfinite`. -/
def isfinite : FloatV → Bool
  | fin _ => true
  | _ => false

/-- Python float equality `a == b` (NaN compares unequal to everything,
including itself). -/
def feq : FloatV → FloatV → Bool
  | inf, inf => true
  | ninf, ninf => true
  | fin x, fin y => decide (x = y)
  | _, _ => false

/-- Python float comparison `a < 0` (false for NaN). -/
def isNeg : FloatV → Bool
  | ninf => true
  | fin x => decide (x < 0)
  | _ => false

end FloatV

namespace PyList

/-- View a model list as a Lean list. -/
def toList : PyList → List PyVal
  | nil => []
  | cons v tl => v :: toList tl

/-- Build a model list from a Lean list. -/
def ofList : List PyVal → PyList
  | [] => nil
  | v :: tl => cons v (ofList tl)

/-- Length of a model list. -/
def length : PyList → Nat
  | nil => 0
  | cons _ tl => length tl + 1

end PyList

namespace PyDict

/-- View a model dict as a Lean association list (in insertion order). -/
def toList : PyDict → List (String × PyVal)
  | nil => []
  | cons k v tl => (k, v) :: toList tl

/-- First-match lookup; since `insertKey` keeps keys unique this is the
Python `d[k]` lookup. -/
def lookup : PyDict → String → Option PyVal
  | nil, _ => none
  | cons k' v tl, k => if k' = k then some v else lookup tl k

/-- Python key-membership `k in d`. -/
def hasKey (d : PyDict) (k : String) : Bool :=
  (d.lookup k).isSome

/-- Python dict assignment `d[k] = v` (also how `json.loads` builds objects):
an existing key keeps its position but gets the new value; a new key is
appended. -/
def insertKey : PyDict → String → PyVal → PyDict
  | nil, k, v => cons k v nil
  | cons k' v' tl, k, v =>
      if k' = k then cons k' v tl else cons k' v' (insertKey tl k v)

/-- Removal of a key (used only by the model of dict equality). -/
def erase : PyDict → String → PyDict
  | nil, _ => nil
  | cons k' v tl, k => if k' = k then tl else cons k' v (erase tl k)

/-- Size of a model dict. -/
def length : PyDict → Nat
  | nil => 0
  | cons _ _ tl => length tl + 1

end PyDict

/-- The numeric reading of a Python value, as a complex pair, when the value
is a member of the numeric tower (`bool` is a subtype of `int`). -/
def numC : PyVal → Option (FloatV × FloatV)
  | .vbool b => some (.fin (if b then 1 else 0), .fin 0)
  | .vint n => some (.fin n, .fin 0)
  | .vfloat f => some (f, .fin 0)
  | .vcomplex re im => some (re, im)
  | _ => none

mutual

/-- The Python `==` operator on model values: cross-type numeric equality
through the numeric tower, structural equality on strings and None,
element-wise equality on lists, key-set/value equality on dicts, and `False`
across unrelated types.  NaN is unequal to itself.  (The CPython identity
shortcut for container elements never fires in the validator, which always
compares a freshly produced actual against a freshly parsed expected value,
so it is not modelled.) -/
def pyEqb : PyVal → PyVal → Bool
  | .vlist l1, .vlist l2 => pyEqbL l1 l2
  | .vdict d1, .vdict d2 => pyEqbD d1 d2
  | .vnone, .vnone => true
  | .vstr s1, .vstr s2 => decide (s1 = s2)
  | a, b =>
      match numC a, numC b with
      | some (x1, y1), some (x2, y2) => x1.feq x2 && y1.feq y2
      | _, _ => false

/-- Python `==` on lists: equal lengths and pairwise equal elements. -/
def pyEqbL : PyList → PyList → Bool
  | .nil, .nil => true
  | .cons v1 t1, .cons v2 t2 => pyEqb v1 v2 && pyEqbL t1 t2
  | _, _ => false

/-- Python `==` on dicts: same keys with equal values, order-insensitive
(dicts in play have unique keys). -/
def pyEqbD : PyDict → PyDict → Bool
  | .nil, d2 => decide (d2 = .nil)
  | .cons k v t1, d2 =>
      match d2.lookup k with
      | some w => pyEqb v w && pyEqbD t1 (d2.erase k)
      | none => false

end

/-- Python truthiness, as used by `if predicate(actual):`. -/
def pyTruthy : PyVal → Bool
  | .vnone => false
  | .vbool b => b
  | .vint n => decide (n ≠ 0)
  | .vfloat (.fin q) => decide (q ≠ 0)
  | .vfloat _ => true
  | .vstr s => decide (s ≠ "")
  | .vcomplex re im => !(re.feq (.fin 0) && im.feq (.fin 0))
  | .vlist .nil => false
  | .vlist _ => true
  | .vdict .nil => false
  | .vdict _ => true

/-- Model of a raised Python exception: class name and message. -/
structure PyExc where
  ename : String
  emsg : String
deriving DecidableEq, Repr

/-- Does one character list appear as a prefix of another. -/
def startsWithL : List Char → List Char → Bool
  | [], _ => true
  | _ :: _, [] => false
  | p :: ps, c :: cs => p = c && startsWithL ps cs

/-- Does one character list appear as a contiguous run inside another
(Python substring membership `sub in s`). -/
def infixL : List Char → List Char → Bool
  | pat, [] => pat.isEmpty
  | pat, c :: cs => startsWithL pat (c :: cs) || infixL pat cs

/-- Membership of a value in a model list under Python `==`. -/
def memEqb : PyList → PyVal → Bool
  | .nil, _ => false
  | .cons v tl, x => pyEqb x v || memEqb tl x

/-- The Python `in` operator, `needle in container`, for the container
shapes it is applied to in the source: dict (key membership), list (element
membership under `==`), string (substring; the needle must be a string).
Other containers raise `TypeError`. -/
def pyInOp (needle container : PyVal) : Except PyExc Bool :=
  match container with
  | .vdict d =>
      match needle with
      | .vstr k => .ok (d.hasKey k)
      | _ => .ok false
  | .vlist l => .ok (memEqb l needle)
  | .vstr s =>
      match needle with
      | .vstr sub => .ok (infixL sub.data s.data)
      | _ => .error ⟨"TypeError", "in <string> requires string as left operand"⟩
  | _ => .error ⟨"TypeError", "argument is not iterable"⟩

/-- Python subscription `container[k]` with a string key, as the source uses
it: dict lookup (`KeyError` when absent); every non-dict raises `TypeError`
(string indices of a list or of a string are type errors in Python). -/
def pySubscript (container : PyVal) (k : String) : Except PyExc PyVal :=
  match container with
  | .vdict d =>
      match d.lookup k with
      | some v => .ok v
      | none => .error ⟨"KeyError", k⟩
  | _ => .error ⟨"TypeError", "indices must be integers"⟩

/-- Python `container.get(k, default)`: only dicts have `.get`; anything
else raises `AttributeError`. -/
def pyDictGet (container : PyVal) (k : String) (dflt : PyVal) :
    Except PyExc PyVal :=
  match container with
  | .vdict d => .ok ((d.lookup k).getD dflt)
  | _ => .error ⟨"AttributeError", "object has no attribute get"⟩

/-! ### The math module and `math.isclose` -/

/-- The members of Python's `math` module that this development models.
The real module has more attributes; every one of them resolves through
`getattr(math, name)` by exactly the same rule, so this finite table is a
restriction of the module's attribute table to the members exercised here
(the three classification predicates plus three other genuine, callable
members that witness the absence of an allow-list). -/
inductive MathFn where
  | isnan : MathFn
  | isinf : MathFn
  | isfinite : MathFn
  | floor : MathFn
  | ceil : MathFn
  | trunc : MathFn
deriving DecidableEq, Repr

/-- The attribute table of the modelled fragment of the `math` module. -/
def mathAttr : String → Option MathFn
  | "isnan" => some .isnan
  | "isinf" => some .isinf
  | "isfinite" => some .isfinite
  | "floor" => some .floor
  | "ceil" => some .ceil
  | "trunc" => some .trunc
  | _ => none

/-- The real-number reading of a Python value, when it has one (`bool` and
`int` convert; `complex` does not). -/
def toReal? : PyVal → Option FloatV
  | .vbool b => some (.fin (if b then 1 else 0))
  | .vint n => some (.fin n)
  | .vfloat f => some f
  | _ => none

/-- Floor of a rational through integer division (kept self-contained so
that the kernel can evaluate it). -/
def floorQ (q : ℚ) : ℤ :=
  q.num.fdiv q.den

/-- Ceiling of a rational. -/
def ceilQ (q : ℚ) : ℤ :=
  -floorQ (-q)

/-- Truncation of a rational toward zero, as Python `math.trunc` does. -/
def truncQ (q : ℚ) : ℤ :=
  if 0 ≤ q then floorQ q else -floorQ (-q)

/-- Application of a modelled `math` member to one argument, with the
exceptions CPython raises: the classification predicates demand a real
number; `floor`, `ceil` and `trunc` additionally reject NaN and the
infinities. -/
def applyMath (fn : MathFn) (v : PyVal) : Except PyExc PyVal :=
  match toReal? v with
  | none => .error ⟨"TypeError", "must be real number"⟩
  | some f =>
      match fn with
      | .isnan => .ok (.vbool f.isnan)
      | .isinf => .ok (.vbool f.isinf)
      | .isfinite => .ok (.vbool f.isfinite)
      | .floor =>
          match f with
          | .fin q => .ok (.vint (floorQ q))
          | .nan => .error ⟨"ValueError", "cannot convert float NaN to integer"⟩
          | _ => .error ⟨"OverflowError", "cannot convert float infinity to integer"⟩
      | .ceil =>
          match f with
          | .fin q => .ok (.vint (ceilQ q))
          | .nan => .error ⟨"ValueError", "cannot convert float NaN to integer"⟩
          | _ => .error ⟨"OverflowError", "cannot convert float infinity to integer"⟩
      | .trunc =>
          match f with
          | .fin q => .ok (.vint (truncQ q))
          | .nan => .error ⟨"ValueError", "cannot convert float NaN to integer"⟩
          | _ => .error ⟨"OverflowError", "cannot convert float infinity to integer"⟩

/-- The default relative tolerance of `math.isclose`, 1e-09. -/
def relTol : ℚ := 1 / 10 ^ 9

/-- Model of `math.isclose(a, b, abs_tol=t)` with the default relative
tolerance kept at 1e-09, following the CPython implementation: a negative
tolerance raises `ValueError`; equal values (which covers equal infinities)
are close; otherwise an infinite or NaN operand is never close; otherwise
the difference is compared against the relative and absolute tolerances. -/
def pyIsClose (a b absTol : FloatV) : Except PyExc Bool :=
  if absTol.isNeg then .error ⟨"ValueError", "tolerances must be non-negative"⟩
  else .ok (
    if a.feq b then true
    else if a.isinf || b.isinf then false
    else
      match a, b with
      | .fin x, .fin y =>
          let d := |x - y|
          decide (d ≤ relTol * |y|) || decide (d ≤ relTol * |x|) ||
            (match absTol with
             | .fin t => decide (d ≤ t)
             | .inf => true
             | _ => false)
      | _, _ => false)

/-! ### Rendering of values (float repr and message payloads) -/

/-- Smallest power of ten that clears the denominator, when one of the first
`fuel` powers does; every Python float is a dyadic rational, so for every
value a real run can produce this search succeeds. -/
def decExp (fuel : Nat) (q : ℚ) : Option Nat :=
  match fuel with
  | 0 => none
  | fuel + 1 => if (q * 10 ^ 0).den = 1 then some 0 else
      match decExp fuel (q * 10) with
      | some m => some (m + 1)
      | none => none

/-- Decimal rendering of a finite float value, always with a decimal point,
as the float repr that `json.dump` writes (the model prints plain decimals
where CPython may choose scientific notation; both are deterministic
functions of the value and both reparse to the same value). -/
def printFinFloat (q : ℚ) : String :=
  match decExp 200 q with
  | none => "0"
  | some 0 => (if q < 0 then "-" else "") ++ toString (q.num.natAbs) ++ ".0"
  | some (m + 1) =>
      let n := (|q| * 10 ^ (m + 1)).num.natAbs
      let digits := toString n
      let digits := if digits.length ≤ m + 1 then
          String.mk (List.replicate (m + 2 - digits.length) '0') ++ digits
        else digits
      let intPart := digits.dropRight (m + 1)
      let fracPart := String.mk (digits.data.drop (digits.length - (m + 1)))
      (if q < 0 then "-" else "") ++ intPart ++ "." ++ fracPart

/-- Rendering of a float for `json.dump`: the JSON extension tokens for the
specials, a decimal otherwise. -/
def printFloatJson : FloatV → String
  | .nan => "NaN"
  | .inf => "Infinity"
  | .ninf => "-Infinity"
  | .fin q => printFinFloat q

/-- Rendering of a float for Python `str` and message payloads. -/
def printFloatPy : FloatV → String
  | .nan => "nan"
  | .inf => "inf"
  | .ninf => "-inf"
  | .fin q => printFinFloat q

mutual

/-- Model of Python `str(value)`, used by the f-strings that build mismatch
reasons.  Message payloads are renderings of the value; the claims never
constrain their exact spelling. -/
def pyStr : PyVal → String
  | .vnone => "None"
  | .vbool b => if b then "True" else "False"
  | .vint n => toString n
  | .vfloat f => printFloatPy f
  | .vstr s => s
  | .vcomplex re im => "(" ++ printFloatPy re ++ "+" ++ printFloatPy im ++ "j)"
  | .vlist l => "[" ++ pyStrL l ++ "]"
  | .vdict d => "\x7b" ++ pyStrD d ++ "\x7d"

/-- Model of Python `repr(value)` as used for container elements: strings
are quoted, everything else prints as in `str`. -/
def pyRepr : PyVal → String
  | .vstr s => "'" ++ s ++ "'"
  | .vlist l => "[" ++ pyStrL l ++ "]"
  | .vdict d => "\x7b" ++ pyStrD d ++ "\x7d"
  | .vnone => "None"
  | .vbool b => if b then "True" else "False"
  | .vint n => toString n
  | .vfloat f => printFloatPy f
  | .vcomplex re im => "(" ++ printFloatPy re ++ "+" ++ printFloatPy im ++ "j)"

/-- Comma-separated reprs of list elements. -/
def pyStrL : PyList → String
  | .nil => ""
  | .cons v .nil => pyRepr v
  | .cons v tl => pyRepr v ++ ", " ++ pyStrL tl

/-- Comma-separated reprs of dict items. -/
def pyStrD : PyDict → String
  | .nil => ""
  | .cons k v .nil => "'" ++ k ++ "': " ++ pyRepr v
  | .cons k v tl => "'" ++ k ++ "': " ++ pyRepr v ++ ", " ++ pyStrD tl

end

/-! ### IRValidator._resolve_predicate -/

/-- Split a character list at its last dot, when it has one: the rightmost
match wins because a split found in the tail takes precedence. -/
def rsplitDotAux : List Char → Option (List Char × List Char)
  | [] => none
  | c :: cs =>
      match rsplitDotAux cs with
      | some (m, f) => some (c :: m, f)
      | none => if c = '.' then some ([], cs) else none

/-- Split a string at its last dot, when it has one (`name.rsplit(".", 1)`
guarded by `"." in name`). -/
def rsplitDot (s : String) : Option (String × String) :=
  match rsplitDotAux s.data with
  | some (m, f) => some (String.mk m, String.mk f)
  | none => none

/-- Source: `IRValidator._resolve_predicate` (IRProcessor.py lines 256-262).
A dotted name whose module part is exactly `math` resolves by module
attribute lookup (`getattr`, raising `AttributeError` for a missing member);
everything else raises `ValueError`.  A non-string name makes the membership
test `"." in name` raise `TypeError`. -/
def resolve_predicate (name : PyVal) : Except PyExc MathFn :=
  match name with
  | .vstr s =>
      match rsplitDot s with
      | some (moduleName, funcName) =>
          if moduleName = "math" then
            match mathAttr funcName with
            | some fn => .ok fn
            | none =>
                .error ⟨"AttributeError",
                  "module math has no attribute " ++ funcName⟩
          else .error ⟨"ValueError", "Cannot resolve predicate: " ++ s⟩
      | none => .error ⟨"ValueError", "Cannot resolve predicate: " ++ s⟩
  | _ => .error ⟨"TypeError", "in <string> requires string as left operand"⟩

/-! ### IRValidator._check_expectation -/

/-- Conversion of the `abs_tol` argument that `math.isclose` performs: any
real-number value converts, anything else raises `TypeError`. -/
def toFloatArg (v : PyVal) : Except PyExc FloatV :=
  match toReal? v with
  | some f => .ok f
  | none => .error ⟨"TypeError", "must be real number"⟩

/-- The `isinstance(x, (int, float))` test (`bool` is a subclass of `int`). -/
def isIntOrFloat : PyVal → Bool
  | .vbool _ => true
  | .vint _ => true
  | .vfloat _ => true
  | _ => false

/-- The `isinstance(x, float)` test. -/
def isFloatInst : PyVal → Bool
  | .vfloat _ => true
  | _ => false

/-- Source: `IRValidator._check_expectation` (IRProcessor.py lines 228-254).
Checks an actual returned value against an expectation dict: a `raises` key
means a normal return is an immediate mismatch; an `equals` key compares a
float actual against a numeric expected value with `math.isclose` (absolute
tolerance from the case, default from the validator) and anything else with
Python `==`; a `predicate` key resolves the named predicate and applies it.
Exceptions raised here (unknown predicate, bad tolerance, missing inner
keys) propagate to the caller. -/
def check_expectation (tolDefault : ℚ) (actual expectation : PyVal) :
    Except PyExc (Bool × Option String) := do
  if ← pyInOp (.vstr "raises") expectation then
    return (false, some "Expected exception but function returned normally")
  if ← pyInOp (.vstr "equals") expectation then
    let eqd ← pySubscript expectation "equals"
    let expectedValue ← pySubscript eqd "value"
    let tolerance ← pyDictGet eqd "tolerance" (.vfloat (.fin tolDefault))
    if isFloatInst actual && isIntOrFloat expectedValue then
      match actual, toReal? expectedValue with
      | .vfloat a, some b =>
          let t ← toFloatArg tolerance
          if ← pyIsClose a b t then
            return (true, none)
          return (false, some ("Values differ: " ++ pyStr actual ++ " != " ++
            pyStr expectedValue))
      | _, _ => return (false, some "unreachable")
    if pyEqb actual expectedValue then
      return (true, none)
    return (false, some ("Values differ: " ++ pyStr actual ++ " != " ++
      pyStr expectedValue))
  if ← pyInOp (.vstr "predicate") expectation then
    let pd ← pySubscript expectation "predicate"
    let predicateName ← pySubscript pd "name"
    let predicate ← resolve_predicate predicateName
    let r ← applyMath predicate actual
    if pyTruthy r then
      return (true, none)
    return (false, some ("Predicate " ++ pyStr predicateName ++
      " failed for value " ++ pyStr actual))
  return (false, some "No valid expectation type found")

/-! ### IRValidator._process_args and the restricted evaluator -/

/-- Outcome of parsing one Python literal inside the restricted evaluator:
either a quoted string or a number. -/
inductive PyLit where
  | lstr : String → PyLit
  | lnum : ℚ → Bool → PyLit
deriving DecidableEq, Repr

/-- Parse of an unsigned digit run to a natural number, with the rest. -/
def takeDigits (cs : List Char) : List Char × List Char :=
  (cs.takeWhile Char.isDigit, cs.dropWhile Char.isDigit)

/-- Numeric value of a digit run. -/
def digitsToNat (ds : List Char) : Nat :=
  ds.foldl (fun acc c => acc * 10 + (c.toNat - 48)) 0

/-- Parse of a Python number literal: optional sign, digits, optional
fraction.  The Bool records whether the literal was an int. -/
def parsePyNumber (cs : List Char) : Option (PyLit × List Char) :=
  let (neg, cs) := match cs with
    | '-' :: rest => (true, rest)
    | rest => (false, rest)
  let (ip, cs) := takeDigits cs
  if ip.isEmpty then none
  else
    match cs with
    | '.' :: rest =>
        let (fp, rest) := takeDigits rest
        let q : ℚ := (digitsToNat ip : ℚ) + (digitsToNat fp : ℚ) / 10 ^ fp.length
        some (.lnum (if neg then -q else q) false, rest)
    | rest => some (.lnum (if neg then (-(digitsToNat ip : ℤ) : ℚ) else (digitsToNat ip : ℚ)) true, rest)

/-- Parse of a quoted Python string literal (either quote kind, no escape
processing: none of the strings in play contain escapes). -/
def parsePyString (cs : List Char) : Option (PyLit × List Char) :=
  match cs with
  | q :: rest =>
      if q = '\'' || q = '"' then
        let body := rest.takeWhile (· ≠ q)
        match rest.dropWhile (· ≠ q) with
        | _ :: rest2 => some (.lstr (String.mk body), rest2)
        | [] => none
      else none
  | [] => none

/-- Parse of one Python literal. -/
def parsePyLit (cs : List Char) : Option (PyLit × List Char) :=
  match parsePyString cs with
  | some r => some r
  | none => parsePyNumber cs

/-- Evaluation of `float(<literal>)` as CPython does: the special spellings
of NaN and the infinities (here the lowercase ones the repository uses),
otherwise the numeric reading of the text. -/
def pyFloatOfLit : PyLit → Option FloatV
  | .lstr s =>
      if s = "nan" then some .nan
      else if s = "inf" ∨ s = "infinity" then some .inf
      else if s = "-inf" ∨ s = "-infinity" then some .ninf
      else
        match parsePyNumber s.data with
        | some (.lnum q _, []) => some (.fin q)
        | _ => none
  | .lnum q _ => some (.fin q)

/-- Evaluation of `int(<literal>)`: an integer text, or truncation of a
float argument; a fractional text raises. -/
def pyIntOfLit : PyLit → Option ℤ
  | .lstr s =>
      match parsePyNumber s.data with
      | some (.lnum q true, []) => some q.num
      | _ => none
  | .lnum q isInt => if isInt then some q.num else some (truncQ q)

/-- Evaluation of `str(<literal>)`. -/
def pyStrOfLit : PyLit → String
  | .lstr s => s
  | .lnum q isInt => if isInt then toString q.num else printFinFloat q

/-- Model of `eval(args, constrained to float/int/str)` as used by
`IRValidator._process_args` on strings starting with `float(`, `int(` or
`str(`.  Modelled on the narrow grammar `fn(<literal>)`: CPython would
additionally evaluate compound expressions under the three names, which
nothing in the repository produces; any other input is treated as an
evaluation failure, which the bare `except` in the source turns into
returning the original string. -/
def restrictedEval (s : String) : Option PyVal :=
  let run (fn : String) (cs : List Char) : Option PyVal :=
    match parsePyLit cs with
    | some (lit, ')' :: []) =>
        if fn = "float" then (pyFloatOfLit lit).map .vfloat
        else if fn = "int" then (pyIntOfLit lit).map .vint
        else some (.vstr (pyStrOfLit lit))
    | _ => none
  if startsWithL "float(".data s.data then run "float" (s.data.drop 6)
  else if startsWithL "int(".data s.data then run "int" (s.data.drop 4)
  else if startsWithL "str(".data s.data then run "str" (s.data.drop 4)
  else none

/-- String slice `s[1:-1]`. -/
def stripEnds (s : String) : String :=
  String.mk ((s.data.drop 1).dropLast)

mutual

/-- Source: `IRValidator._process_args` (IRProcessor.py lines 264-289).
Strings decode the three sentinel tokens to special floats, strings starting
with `float(` / `int(` / `str(` go through the restricted evaluator (falling
back to the unchanged string on failure), and strings that start and end
with a double quote lose their first and last character; lists and dict
values are processed recursively; everything else passes through. -/
def process_args : PyVal → PyVal
  | .vstr s =>
      if s = "NaN" then .vfloat .nan
      else if s = "Infinity" then .vfloat .inf
      else if s = "-Infinity" then .vfloat .ninf
      else if startsWithL "float(".data s.data || startsWithL "int(".data s.data
          || startsWithL "str(".data s.data then
        match restrictedEval s with
        | some v => v
        | none => .vstr s
      else if startsWithL "\"".data s.data && startsWithL "\"".data s.data.reverse then
        .vstr (stripEnds s)
      else .vstr s
  | .vlist l => .vlist (processArgsL l)
  | .vdict d => .vdict (processArgsD d)
  | v => v

/-- Element-wise processing of a list argument. -/
def processArgsL : PyList → PyList
  | .nil => .nil
  | .cons v tl => .cons (process_args v) (processArgsL tl)

/-- Value-wise processing of a kwargs dict. -/
def processArgsD : PyDict → PyDict
  | .nil => .nil
  | .cons k v tl => .cons k (process_args v) (processArgsD tl)

end

/-! ### IRValidator._validate_case -/

/-- The outcome of one call to the target: a normal return or a raised
exception.  The target is pure in the model: the code calls it once per
case with the decoded arguments. -/
inductive CallRes where
  | ret : PyVal → CallRes
  | exc : PyExc → CallRes
deriving DecidableEq, Repr

/-- The resolved target callable: positional arguments and keyword
arguments to an outcome. -/
def TargetFn : Type :=
  List PyVal → List (String × PyVal) → CallRes

/-- One validation result, the dict `_validate_case` returns: `case_id` and
`valid` are always present; `actual`, `expected` and `reason` are absent
(`none`) in the valid-exception result.  The `reason` payload itself is an
optional string, as in the source. -/
structure VRes where
  case_id : PyVal
  valid : Bool
  actual : Option PyVal
  expected : Option PyVal
  reason : Option (Option String)
deriving DecidableEq, Repr

/-- The `{"exception": name}` actual recorded for a raised error. -/
def excDict (ename : String) : PyVal :=
  .vdict (.cons "exception" (.vstr ename) .nil)

/-- Python iteration over the shapes that can appear where a list is
expected: a list yields its elements, a string its characters, a dict its
keys; anything else raises `TypeError`. -/
def iterElems (v : PyVal) : Except PyExc (List PyVal) :=
  match v with
  | .vlist l => .ok l.toList
  | .vstr s => .ok (s.data.map fun c => .vstr (String.mk [c]))
  | .vdict d => .ok (d.toList.map fun kv => .vstr kv.1)
  | _ => .error ⟨"TypeError", "object is not iterable"⟩

/-- The `**kwargs` unpacking: the processed kwargs value must be a mapping. -/
def asKwargs (v : PyVal) : Except PyExc (List (String × PyVal)) :=
  match v with
  | .vdict d => .ok d.toList
  | _ => .error ⟨"TypeError", "argument after ** must be a mapping"⟩

/-- The `except Exception` handler of `_validate_case` (IRProcessor.py lines
206-226): with a `raises` expectation the raised kind is looked up in the
declared `types` (missing inner keys raise out of the handler); any other
expectation records the exception as an invalid result. -/
def handleCaseExc (caseId expectation : PyVal) (e : PyExc) :
    Except PyExc VRes := do
  if ← pyInOp (.vstr "raises") expectation then
    let rd ← pySubscript expectation "raises"
    let expectedTypes ← pySubscript rd "types"
    if ← pyInOp (.vstr e.ename) expectedTypes then
      return { case_id := caseId, valid := true, actual := none,
               expected := none, reason := none }
    return { case_id := caseId, valid := false, actual := some (excDict e.ename),
             expected := some expectation,
             reason := some (some ("Wrong exception: expected " ++
               pyStr expectedTypes ++ ", got " ++ e.ename)) }
  return { case_id := caseId, valid := false, actual := some (excDict e.ename),
           expected := some expectation,
           reason := some (some ("Unexpected exception: " ++ e.emsg)) }

/-- Source: `IRValidator._validate_case` (IRProcessor.py lines 186-226).
Reads the case fields, decodes the arguments, invokes the target once, and
classifies: a normal return goes through `check_expectation`, whose result
becomes the full result dict; any exception — from the call or from
`check_expectation` itself — goes through the handler above.  Exceptions
escaping the handler propagate out of the validator uncaught. -/
def validate_case (tolDefault : ℚ) (func : TargetFn) (case : PyVal) :
    Except PyExc VRes := do
  let caseId ← pySubscript case "id"
  let call ← pySubscript case "call"
  let expectation ← pySubscript case "expectation"
  let args := process_args (← pyDictGet call "args" (.vlist .nil))
  let kwargs := process_args (← pyDictGet call "kwargs" (.vdict .nil))
  let argList ← iterElems args
  let kwargList ← asKwargs kwargs
  match func argList kwargList with
  | .ret actual =>
      match check_expectation tolDefault actual expectation with
      | .ok (valid, reason) =>
          return { case_id := caseId, valid := valid, actual := some actual,
                   expected := some expectation, reason := some reason }
      | .error e => handleCaseExc caseId expectation e
  | .exc e => handleCaseExc caseId expectation e

/-! ### IRValidator.validate -/

/-- How a run of `IRValidator.validate` fails: a `ValidationError` raised by
the validator itself, or a Python exception escaping it uncaught (the source
catches nothing else at this level). -/
inductive IRErr where
  | vErr : String → IRErr
  | uncaught : PyExc → IRErr
deriving DecidableEq, Repr

/-- Lift a Python exception into an uncaught validator failure. -/
def liftPy {α : Type} : Except PyExc α → Except IRErr α
  | .ok a => .ok a
  | .error e => .error (.uncaught e)

/-- Source: the case loop of `IRValidator.validate` (IRProcessor.py lines
169-178).  Each case must carry `id`, `call` and `expectation` keys (else
`ValidationError`), is validated independently, and only the invalid results
are accumulated, in document order. -/
def validate_cases (tolDefault : ℚ) (func : TargetFn) :
    List PyVal → Except IRErr (List VRes)
  | [] => .ok []
  | case :: rest => do
      if !(← liftPy (pyInOp (.vstr "id") case)) then
        throw (.vErr ("Invalid case structure: " ++ pyStr case))
      if !(← liftPy (pyInOp (.vstr "call") case)) then
        throw (.vErr ("Invalid case structure: " ++ pyStr case))
      if !(← liftPy (pyInOp (.vstr "expectation") case)) then
        throw (.vErr ("Invalid case structure: " ++ pyStr case))
      let result ← liftPy (validate_case tolDefault func case)
      let tail ← validate_cases tolDefault func rest
      return if result.valid then tail else result :: tail

/-- The target-resolution capability: the behaviour of
`importlib.import_module(module)` followed by `getattr(module, name)`,
supplied from outside as in the spec's registry design.  A resolution
failure is the exception that lookup raises. -/
def Resolver : Type :=
  String → String → Except PyExc TargetFn

/-- Split of a character list at every occurrence of a separator
(the behaviour of `str.split` with an explicit separator). -/
def splitOnChar (sep : Char) : List Char → List (List Char)
  | [] => [[]]
  | c :: rest =>
      let r := splitOnChar sep rest
      if c = sep then [] :: r
      else
        match r with
        | h :: t => (c :: h) :: t
        | [] => [[c]]

/-- Source: `IRValidator._resolve_target` plus its call site (IRProcessor.py
lines 164-167 and 180-184).  The target reference must be a string of shape
`module:function` — `.split(":")` on a non-string raises `AttributeError`,
which the call site catches into a `ValidationError`, while a colon count
other than one raises an uncaught `ValueError` from tuple unpacking.
`ImportError` / `AttributeError` from the lookup become `ValidationError`. -/
def resolveTargetRef (resolver : Resolver) (target : PyVal) :
    Except IRErr TargetFn :=
  match target with
  | .vstr s =>
      match (splitOnChar ':' s.data).map String.mk with
      | [moduleName, funcName] =>
          match resolver moduleName funcName with
          | .ok f => .ok f
          | .error e =>
              if e.ename = "ImportError" ∨ e.ename = "AttributeError" then
                .error (.vErr ("Cannot resolve target function: " ++ e.emsg))
              else .error (.uncaught e)
      | _ => .error (.uncaught ⟨"ValueError", "values to unpack"⟩)
  | _ => .error (.vErr "Cannot resolve target function: split")

/-- Source: `IRValidator.validate` after a successful parse (IRProcessor.py
lines 161-178): require the top-level `target` and `cases` keys, resolve the
target once for the run, then run the case loop.  (The optional
`jsonschema` pass is modelled as absent: the schema file does not exist in
the modelled environment, which the source skips silently.) -/
def validate_parsed (tolDefault : ℚ) (resolver : Resolver) (irData : PyVal) :
    Except IRErr (List VRes) := do
  let hasTarget ← liftPy (pyInOp (.vstr "target") irData)
  let hasCases ← liftPy (pyInOp (.vstr "cases") irData)
  if !hasTarget ∨ !hasCases then
    throw (.vErr "IR file missing required target or cases fields")
  let target ← liftPy (pySubscript irData "target")
  let func ← resolveTargetRef resolver target
  let cases ← liftPy (pySubscript irData "cases")
  let caseList ← liftPy (iterElems cases)
  validate_cases tolDefault func caseList

/-! ### The JSON codec (model of json.loads and json.dump) -/

/-- JSON whitespace. -/
def isJsonWs (c : Char) : Bool :=
  c = ' ' || c = '\t' || c = '\n' || c = '\r'

/-- Skip of leading JSON whitespace. -/
def skipWs (cs : List Char) : List Char :=
  cs.dropWhile isJsonWs

/-- Hex digit value. -/
def hexVal (c : Char) : Option Nat :=
  if '0' ≤ c ∧ c ≤ '9' then some (c.toNat - 48)
  else if 'a' ≤ c ∧ c ≤ 'f' then some (c.toNat - 87)
  else if 'A' ≤ c ∧ c ≤ 'F' then some (c.toNat - 55)
  else none

/-- Parse of the body of a JSON string after the opening quote, with the
standard escapes. -/
def parseJString : Nat → List Char → Option (String × List Char)
  | 0, _ => none
  | _, [] => none
  | fuel + 1, c :: cs =>
      if c = '"' then some ("", cs)
      else if c = '\\' then
        match cs with
        | e :: cs2 =>
            let dec : Option (Char × List Char) :=
              if e = '"' then some ('"', cs2)
              else if e = '\\' then some ('\\', cs2)
              else if e = '/' then some ('/', cs2)
              else if e = 'b' then some (Char.ofNat 8, cs2)
              else if e = 'f' then some (Char.ofNat 12, cs2)
              else if e = 'n' then some ('\n', cs2)
              else if e = 'r' then some ('\r', cs2)
              else if e = 't' then some ('\t', cs2)
              else if e = 'u' then
                match cs2 with
                | h1 :: h2 :: h3 :: h4 :: cs3 =>
                    match hexVal h1, hexVal h2, hexVal h3, hexVal h4 with
                    | some a, some b, some c', some d =>
                        some (Char.ofNat (((a * 16 + b) * 16 + c') * 16 + d), cs3)
                    | _, _, _, _ => none
                | _ => none
              else none
            match dec with
            | some (ch, rest) =>
                match parseJString fuel rest with
                | some (s, rest2) => some (String.mk (ch :: s.data), rest2)
                | none => none
            | none => none
        | [] => none
      else if c.toNat < 32 then none
      else
        match parseJString fuel cs with
        | some (s, rest) => some (String.mk (c :: s.data), rest)
        | none => none

/-- Append at the end of a model list. -/
def pushBack : PyList → PyVal → PyList
  | .nil, v => .cons v .nil
  | .cons w tl, v => .cons w (pushBack tl v)

/-- Integer power of ten of a rational. -/
def qpow10 (ex : ℤ) : ℚ :=
  match ex with
  | .ofNat n => 10 ^ n
  | .negSucc n => 1 / 10 ^ (n + 1)

/-- Parse of a signed decimal exponent. -/
def parseJExp (cs : List Char) : Option (ℤ × List Char) :=
  let (eneg, cs1) := match cs with
    | '-' :: rest => (true, rest)
    | '+' :: rest => (false, rest)
    | rest => (false, rest)
  let (ds, cs2) := takeDigits cs1
  if ds.isEmpty then none
  else some ((if eneg then -(digitsToNat ds : ℤ) else digitsToNat ds), cs2)

/-- Parse of a JSON number (strict grammar: optional minus, no leading
zeros, optional fraction and exponent).  Returns an int for an integer
literal and a float otherwise, as `json.loads` does. -/
def parseJNumber (cs : List Char) : Option (PyVal × List Char) :=
  let (neg, cs1) := match cs with
    | '-' :: rest => (true, rest)
    | rest => (false, rest)
  let (ip, cs2) := takeDigits cs1
  if ip.isEmpty then none
  else if ip.length > 1 ∧ ip.headD '0' = '0' then none
  else
    let ipVal : ℤ := digitsToNat ip
    let (frac, cs3) : Option (List Char) × List Char :=
      match cs2 with
      | '.' :: rest =>
          let (fp, rest2) := takeDigits rest
          if fp.isEmpty then (none, cs2) else (some fp, rest2)
      | _ => (none, cs2)
    match frac, cs3 with
    | none, rest3 =>
        match rest3 with
        | e :: rest4 =>
            if e = 'e' ∨ e = 'E' then
              match parseJExp rest4 with
              | some (ex, rest5) =>
                  let q : ℚ := (ipVal : ℚ) * qpow10 ex
                  some (.vfloat (.fin (if neg then -q else q)), rest5)
              | none => none
            else some (.vint (if neg then -ipVal else ipVal), rest3)
        | [] => some (.vint (if neg then -ipVal else ipVal), rest3)
    | some fp, rest3 =>
        let base : ℚ := (ipVal : ℚ) + (digitsToNat fp : ℚ) / 10 ^ fp.length
        match rest3 with
        | e :: rest4 =>
            if e = 'e' ∨ e = 'E' then
              match parseJExp rest4 with
              | some (ex, rest5) =>
                  let q : ℚ := base * qpow10 ex
                  some (.vfloat (.fin (if neg then -q else q)), rest5)
              | none => none
            else some (.vfloat (.fin (if neg then -base else base)), rest3)
        | [] => some (.vfloat (.fin (if neg then -base else base)), rest3)

mutual

/-- Parse of one JSON value (the `json.loads` grammar, including the
CPython extension tokens `NaN`, `Infinity` and `-Infinity`). -/
def parseJValue : Nat → List Char → Option (PyVal × List Char)
  | 0, _ => none
  | fuel + 1, cs =>
      match cs with
      | [] => none
      | c :: rest =>
          if c = '"' then
            match parseJString (fuel + 1) rest with
            | some (s, rest2) => some (.vstr s, rest2)
            | none => none
          else if c = '[' then
            match skipWs rest with
            | ']' :: rest2 => some (.vlist .nil, rest2)
            | rest2 => parseJItems fuel rest2 .nil
          else if c = '\x7b' then
            match skipWs rest with
            | '\x7d' :: rest2 => some (.vdict .nil, rest2)
            | rest2 => parseJMembers fuel rest2 .nil
          else if startsWithL "true".data cs then some (.vbool true, cs.drop 4)
          else if startsWithL "false".data cs then some (.vbool false, cs.drop 5)
          else if startsWithL "null".data cs then some (.vnone, cs.drop 4)
          else if startsWithL "NaN".data cs then some (.vfloat .nan, cs.drop 3)
          else if startsWithL "Infinity".data cs then some (.vfloat .inf, cs.drop 8)
          else if startsWithL "-Infinity".data cs then some (.vfloat .ninf, cs.drop 9)
          else parseJNumber cs

/-- Parse of the comma-separated items of a non-empty JSON array, the
opening bracket and leading whitespace already consumed. -/
def parseJItems (fuel : Nat) (cs : List Char) (acc : PyList) :
    Option (PyVal × List Char) :=
  match fuel with
  | 0 => none
  | fuel + 1 =>
      match parseJValue fuel cs with
      | some (v, rest) =>
          match skipWs rest with
          | ',' :: rest2 => parseJItems fuel (skipWs rest2) (pushBack acc v)
          | ']' :: rest2 => some (.vlist (pushBack acc v), rest2)
          | _ => none
      | none => none

/-- Parse of the members of a non-empty JSON object. -/
def parseJMembers (fuel : Nat) (cs : List Char) (acc : PyDict) :
    Option (PyVal × List Char) :=
  match fuel with
  | 0 => none
  | fuel + 1 =>
      match cs with
      | '"' :: rest =>
          match parseJString fuel rest with
          | some (k, rest2) =>
              match skipWs rest2 with
              | ':' :: rest3 =>
                  match parseJValue fuel (skipWs rest3) with
                  | some (v, rest4) =>
                      match skipWs rest4 with
                      | ',' :: rest5 =>
                          parseJMembers fuel (skipWs rest5) (acc.insertKey k v)
                      | '\x7d' :: rest5 => some (.vdict (acc.insertKey k v), rest5)
                      | _ => none
                  | none => none
              | _ => none
          | none => none
      | _ => none

end

/-- Model of `json.loads`: parse one value surrounded by whitespace, with
nothing left over. -/
def jsonParse (content : String) : Option PyVal :=
  match parseJValue (content.length + 1) (skipWs content.data) with
  | some (v, rest) => if skipWs rest = [] then some v else none
  | none => none

/-- JSON string escaping for the serializer. -/
def escJ : List Char → String
  | [] => ""
  | c :: cs =>
      (if c = '"' then "\\\""
       else if c = '\\' then "\\\\"
       else if c = '\n' then "\\n"
       else if c = '\r' then "\\r"
       else if c = '\t' then "\\t"
       else String.mk [c]) ++ escJ cs

mutual

/-- Model of `json.dump(ir_data, f, indent=2)`: a deterministic rendering of
the document.  The model emits a compact layout where CPython emits an
indented one; no claim compares these bytes with an externally produced
file, only with the output of another run of the same function.  A `complex`
value would make `json.dump` raise `TypeError`; it is unreachable in a
corrected document, and the model emits `null` there. -/
def serializeJson : PyVal → String
  | .vnone => "null"
  | .vbool b => if b then "true" else "false"
  | .vint n => toString n
  | .vfloat f => printFloatJson f
  | .vstr s => "\"" ++ escJ s.data ++ "\""
  | .vcomplex _ _ => "null"
  | .vlist l => "[" ++ serializeL l ++ "]"
  | .vdict d => "\x7b" ++ serializeD d ++ "\x7d"

/-- Serialization of array items. -/
def serializeL : PyList → String
  | .nil => ""
  | .cons v .nil => serializeJson v
  | .cons v tl => serializeJson v ++ ", " ++ serializeL tl

/-- Serialization of object members. -/
def serializeD : PyDict → String
  | .nil => ""
  | .cons k v .nil => "\"" ++ escJ k.data ++ "\": " ++ serializeJson v
  | .cons k v tl =>
      "\"" ++ escJ k.data ++ "\": " ++ serializeJson v ++ ", " ++ serializeD tl

end

/-! ### IRSyntaxFixer -/

/-- Try each pattern as a prefix; on a hit return the rest of the input. -/
def tryPats (pats : List (List Char)) (cs : List Char) : Option (List Char) :=
  match pats with
  | [] => none
  | p :: ps => if startsWithL p cs then some (cs.drop p.length) else tryPats ps cs

/-- Left-to-right, non-overlapping replacement of every occurrence of any of
the patterns, as `re.sub` performs it. -/
def replaceAllPats (pats : List (List Char)) (repl : List Char) :
    Nat → List Char → List Char
  | 0, cs => cs
  | _ + 1, [] => []
  | fuel + 1, c :: cs =>
      match tryPats pats (c :: cs) with
      | some rest => repl ++ replaceAllPats pats repl fuel rest
      | none => c :: replaceAllPats pats repl fuel cs

/-- The four spellings `float\(['\"]LIT['\"]\)` matched by one of the fixer's
regexes (the character classes accept the two quote kinds independently). -/
def floatCallPats (lit : String) : List (List Char) :=
  [ "float(".data ++ ['\''] ++ lit.data ++ ['\''] ++ [')'],
    "float(".data ++ ['\''] ++ lit.data ++ ['"'] ++ [')'],
    "float(".data ++ ['"'] ++ lit.data ++ ['\''] ++ [')'],
    "float(".data ++ ['"'] ++ lit.data ++ ['"'] ++ [')'] ]

/-- Source: `IRSyntaxFixer.fix_python_float_expressions` (IRProcessor.py
lines 63-74): three sequential textual substitutions turning Python float
construction idioms into the JSON sentinel strings, plus the
was-modified flag. -/
def fix_python_float_expressions (content : String) : String × Bool :=
  let n := content.data.length + 1
  let c1 := replaceAllPats (floatCallPats "nan") "\"NaN\"".data n content.data
  let c2 := replaceAllPats (floatCallPats "inf") "\"Infinity\"".data (c1.length + 1) c1
  let c3 := replaceAllPats (floatCallPats "-inf") "\"-Infinity\"".data (c2.length + 1) c2
  (String.mk c3, decide (c3 ≠ content.data))

/-! ### IRValidator.validate at the file level -/

/-- Source: `IRValidator.validate` (IRProcessor.py lines 83-178), acting on
the bytes stored at `ir_path`.  Returns the outcome together with the bytes
at `ir_path` after the call: parse failures go through the syntax fixer, and
a fix that reparses is written back to the file — the only write the
validator ever performs.  (The optional `jsonschema` pass is modelled as
absent, as when the schema file does not exist.) -/
def validate_file (tolDefault : ℚ) (resolver : Resolver) (content : String) :
    Except IRErr (List VRes) × String :=
  match jsonParse content with
  | some irData => (validate_parsed tolDefault resolver irData, content)
  | none =>
      let (fixedContent, wasFixed) := fix_python_float_expressions content
      if wasFixed then
        match jsonParse fixedContent with
        | some irData => (validate_parsed tolDefault resolver irData, fixedContent)
        | none => (.error (.vErr "JSON syntax errors remain after auto-fix"), content)
      else (.error (.vErr "Invalid JSON syntax in IR file"), content)

/-! ### IRCorrector -/

/-- How a run of `IRCorrector.correct` fails: a `CorrectionError`, or a
Python exception escaping uncaught. -/
inductive CErr where
  | cerr : String → CErr
  | cuncaught : PyExc → CErr
deriving DecidableEq, Repr

/-- The expectation dict `{"equals": {"value": v, "tolerance": 1e-10}}`. -/
def equalsExp (v : PyVal) : PyVal :=
  .vdict (.cons "equals"
    (.vdict (.cons "value" v (.cons "tolerance" (.vfloat (.fin (1 / 10 ^ 10))) .nil)))
    .nil)

/-- The expectation dict `{"predicate": {"name": n}}`. -/
def predicateExp (n : String) : PyVal :=
  .vdict (.cons "predicate" (.vdict (.cons "name" (.vstr n) .nil)) .nil)

/-- The expectation dict `{"raises": {"types": [t]}}`. -/
def raisesExp (t : PyVal) : PyVal :=
  .vdict (.cons "raises"
    (.vdict (.cons "types" (.vlist (.cons t .nil)) .nil)) .nil)

/-- Source: `IRCorrector._create_expectation` (IRProcessor.py lines
349-378): a recorded exception becomes a `raises` expectation on exactly
that kind; a complex actual becomes the `math.isnan` predicate when a
component is NaN and a `CorrectionError` otherwise; a float actual becomes
`math.isnan` / `math.isinf` / a tolerant `equals`; anything else becomes a
tolerant `equals`. -/
def create_expectation (actual : PyVal) : Except CErr PyVal :=
  match actual with
  | .vdict d =>
      if d.hasKey "exception" then
        match d.lookup "exception" with
        | some excName => .ok (raisesExp excName)
        | none => .error (.cuncaught ⟨"KeyError", "exception"⟩)
      else .ok (equalsExp actual)
  | .vcomplex re im =>
      if re.isnan || im.isnan then .ok (predicateExp "math.isnan")
      else .error (.cerr ("Complex number result (" ++ pyStr (.vcomplex re im) ++
        ") cannot be auto-corrected. Manual review needed."))
  | .vfloat f =>
      if f.isnan then .ok (predicateExp "math.isnan")
      else if f.isinf then .ok (predicateExp "math.isinf")
      else .ok (equalsExp actual)
  | v => .ok (equalsExp v)

/-- Python dict assignment on a case (`case["expectation"] = ...`); the flow
reaches it only after a successful string subscription, so the value is a
dict. -/
def setKey (c : PyVal) (k : String) (v : PyVal) : PyVal :=
  match c with
  | .vdict d => .vdict (d.insertKey k v)
  | other => other

/-- The inner loop of `IRCorrector.correct` for one mismatch: scan the cases
in order, patch the first whose `id` equals the mismatch's `case_id` with a
freshly synthesized expectation, and stop (`break`).  The synthesis — and
its possible `CorrectionError` — happens only when a case matches, as in the
source. -/
def patchCases (cases : PyList) (m : VRes) : Except CErr (PyList × Nat) :=
  match cases with
  | .nil => .ok (.nil, 0)
  | .cons c tl =>
      match pySubscript c "id" with
      | .error e => .error (.cuncaught e)
      | .ok caseId =>
          if pyEqb caseId m.case_id then
            match m.actual with
            | none => .error (.cuncaught ⟨"KeyError", "actual"⟩)
            | some a =>
                match create_expectation a with
                | .error e => .error e
                | .ok newExp => .ok (.cons (setKey c "expectation" newExp) tl, 1)
          else
            match patchCases tl m with
            | .error e => .error e
            | .ok (tl2, k) => .ok (.cons c tl2, k)

/-- The correction loop of `IRCorrector.correct` (IRProcessor.py lines
327-334) over the whole mismatch list, counting the applied patches. -/
def applyCorrections (irData : PyVal) : List VRes → Except CErr (PyVal × Nat)
  | [] => .ok (irData, 0)
  | m :: rest =>
      match pySubscript irData "cases" with
      | .error e => .error (.cuncaught e)
      | .ok (.vlist cases) =>
          match patchCases cases m with
          | .error e => .error e
          | .ok (cases2, k) =>
              match applyCorrections (setKey irData "cases" (.vlist cases2)) rest with
              | .error e => .error e
              | .ok (d2, k2) => .ok (d2, k + k2)
      | .ok _ => .error (.cuncaught ⟨"TypeError", "string indices must be integers"⟩)

/-- The mismatch report of the correction outcome: `{"id": m["case_id"],
"reason": m["reason"]}` per mismatch; a result without a `reason` key would
raise `KeyError`. -/
def buildReport : List VRes → Except CErr (List (PyVal × Option String))
  | [] => .ok []
  | m :: rest =>
      match m.reason with
      | none => .error (.cuncaught ⟨"KeyError", "reason"⟩)
      | some r =>
          match buildReport rest with
          | .error e => .error e
          | .ok tail => .ok ((m.case_id, r) :: tail)

/-- The statistics dict `IRCorrector.correct` returns. -/
structure Outcome where
  corrected : Nat
  total : Nat
  report : List (PyVal × Option String)
deriving DecidableEq, Repr

/-- Decidable equality for `Except`, for concrete evaluation of run
outcomes. -/
instance exceptDecEq {α β : Type} [DecidableEq α] [DecidableEq β] :
    DecidableEq (Except α β)
  | .ok a, .ok b =>
      if h : a = b then .isTrue (by rw [h])
      else .isFalse (fun hh => h (Except.ok.inj hh))
  | .ok _, .error _ => .isFalse Except.noConfusion
  | .error _, .ok _ => .isFalse Except.noConfusion
  | .error a, .error b =>
      if h : a = b then .isTrue (by rw [h])
      else .isFalse (fun hh => h (Except.error.inj hh))

/-- The observable effect of one run of `IRCorrector.correct`: the outcome
(or failure), the bytes at `ir_path` after the run (the validator may have
rewritten them during syntax repair), and the single write the corrector
itself performs to `output_path`, when it performs one. -/
structure CorrectRun where
  result : Except CErr Outcome
  irContent : String
  written : Option String
deriving DecidableEq, Repr

/-- Source: `IRCorrector.correct` (IRProcessor.py lines 298-347), with
`output_path` tracked separately from `ir_path`.  Validation runs fresh
(a `ValidationError` is wrapped into a `CorrectionError`, anything else
escapes uncaught); zero mismatches short-circuit into a zero outcome with no
write; otherwise the file is re-read, every mismatch is patched through
`_create_expectation`, and only then is the whole document serialized in a
single write.  File writes themselves succeed in the modelled environment
(no `IOError`). -/
def correct (tolDefault : ℚ) (resolver : Resolver) (content : String) :
    CorrectRun :=
  match validate_file tolDefault resolver content with
  | (.error (.vErr msg), st) =>
      ⟨.error (.cerr ("Validation failed: " ++ msg)), st, none⟩
  | (.error (.uncaught e), st) => ⟨.error (.cuncaught e), st, none⟩
  | (.ok mismatches, st) =>
      if mismatches.isEmpty then ⟨.ok ⟨0, 0, []⟩, st, none⟩
      else
        match jsonParse st with
        | none => ⟨.error (.cerr "Cannot read IR file"), st, none⟩
        | some irData =>
            match applyCorrections irData mismatches with
            | .error e => ⟨.error e, st, none⟩
            | .ok (irData2, corrections) =>
                match buildReport mismatches with
                | .error e => ⟨.error e, st, some (serializeJson irData2)⟩
                | .ok rep =>
                    ⟨.ok ⟨corrections, mismatches.length, rep⟩, st,
                      some (serializeJson irData2)⟩

/-- The bytes at `ir_path` after a run of `correct` with the default
`output_path` (which is `ir_path` itself): the corrector's write when it
happened, the validator's view of the file otherwise. -/
def afterRun (r : CorrectRun) : String :=
  r.written.getD r.irContent

/-! ### Concrete collaborators for witnesses -/

/-- Division on modelled floats (the divisor is nonzero on every path that
reaches it). -/
def divFloat : FloatV → FloatV → FloatV
  | .nan, _ => .nan
  | _, .nan => .nan
  | .inf, .fin q => if q < 0 then .ninf else .inf
  | .ninf, .fin q => if q < 0 then .inf else .ninf
  | .inf, _ => .nan
  | .ninf, _ => .nan
  | .fin _, .inf => .fin 0
  | .fin _, .ninf => .fin 0
  | .fin x, .fin y => .fin (x / y)

/-- Model of `divide` from `src/division.py`: a `TypeError` unless both
arguments are numeric, a `ZeroDivisionError` when the divisor equals zero,
and true division (always a float in Python 3) otherwise. -/
def divideFn : TargetFn := fun args kwargs =>
  match args, kwargs with
  | [a, b], [] =>
      match toReal? a, toReal? b with
      | some x, some y =>
          if y.feq (.fin 0) then .exc ⟨"ZeroDivisionError", "Cannot divide by zero"⟩
          else .ret (.vfloat (divFloat x y))
      | _, _ => .exc ⟨"TypeError", "Both arguments must be numeric"⟩
  | _, _ => .exc ⟨"TypeError", "divide() takes two positional arguments"⟩

/-- A resolver for an environment holding the repository's `division`
module. -/
def divisionResolver : Resolver := fun moduleName funcName =>
  if moduleName = "division" then
    if funcName = "divide" then .ok divideFn
    else .error ⟨"AttributeError", "module division has no attribute " ++ funcName⟩
  else .error ⟨"ImportError", "No module named " ++ moduleName⟩

/-- A probe document whose only case names an unresolvable predicate: the
resolution error is swallowed into a mismatch whose recorded actual (the
exception dict) differs from what the call returns, so its correction is
unstable across runs. -/
def predicateProbeDoc : String :=
  "\x7b\"target\": \"division:divide\", \"cases\": [\x7b\"id\": \"c1\", \"call\": \x7b\"args\": [10, 2]\x7d, \"expectation\": \x7b\"predicate\": \x7b\"name\": \"no.such\"\x7d\x7d\x7d]\x7d"

/-- A document whose only case divides by zero under a wrong equals
expectation: its single mismatch is stable (the call raises). -/
def zeroDivDoc : String :=
  "\x7b\"target\": \"division:divide\", \"cases\": [\x7b\"id\": \"c1\", \"call\": \x7b\"args\": [1, 0]\x7d, \"expectation\": \x7b\"equals\": \x7b\"value\": 5\x7d\x7d\x7d]\x7d"

/-- The parsed single case of `zeroDivDoc`. -/
def zeroDivCase : PyVal :=
  .vdict (.cons "id" (.vstr "c1")
    (.cons "call" (.vdict (.cons "args"
      (.vlist (.cons (.vint 1) (.cons (.vint 0) .nil))) .nil))
      (.cons "expectation" (.vdict (.cons "equals"
        (.vdict (.cons "value" (.vint 5) .nil)) .nil)) .nil)))

/-- The parsed top-level dict of `zeroDivDoc`. -/
def zeroDivDict : PyDict :=
  .cons "target" (.vstr "division:divide")
    (.cons "cases" (.vlist (.cons zeroDivCase .nil)) .nil)

/-- The case of `zeroDivDoc` after its correction: the equals expectation
replaced in place by the synthesized raises expectation. -/
def zeroDivCasePatched : PyVal :=
  .vdict (.cons "id" (.vstr "c1")
    (.cons "call" (.vdict (.cons "args"
      (.vlist (.cons (.vint 1) (.cons (.vint 0) .nil))) .nil))
      (.cons "expectation" (raisesExp (.vstr "ZeroDivisionError")) .nil)))

/-- The single mismatch validating `zeroDivDoc` reports. -/
def zeroDivMs : List VRes :=
  [{ case_id := .vstr "c1", valid := false,
     actual := some (excDict "ZeroDivisionError"),
     expected := some (.vdict (.cons "equals"
       (.vdict (.cons "value" (.vint 5) .nil)) .nil)),
     reason := some (some "Unexpected exception: Cannot divide by zero") }]

/-- The canonical `equals` expectation dict of a case, with an optional
explicit tolerance entry. -/
def mkEquals (v : PyVal) (tol : Option PyVal) : PyVal :=
  .vdict (.cons "equals"
    (.vdict (.cons "value" v
      (match tol with
       | some t => .cons "tolerance" t .nil
       | none => .nil))) .nil)

/-- The canonical `raises` expectation dict of a case. -/
def mkRaises (types : PyList) : PyVal :=
  .vdict (.cons "raises" (.vdict (.cons "types" (.vlist types) .nil)) .nil)

/-- A well-shaped case dict. -/
def mkCase (cid : String) (args : PyList) (expectation : PyVal) : PyVal :=
  .vdict (.cons "id" (.vstr cid)
    (.cons "call" (.vdict (.cons "args" (.vlist args) .nil))
      (.cons "expectation" expectation .nil)))

/-- The cases-only view of the correction loop: the fold of `patchCases derived
from `IRCorrector.correct`, with the enclosing document dict factored out
(see `applyCorrections_applyMs`). -/
def applyMs (cs : PyList) : List VRes → Except CErr (PyList × Nat)
  | [] => .ok (cs, 0)
  | m :: rest =>
      match patchCases cs m with
      | .error e => .error e
      | .ok (cs2, k) =>
          match applyMs cs2 rest with
          | .error e => .error e
          | .ok (cs3, k2) => .ok (cs3, k + k2)

/-- The decoded call of a case under a target: the argument pipeline of
`_validate_case` followed by the invocation, factored out so that theorems
can talk about what the target did on a case. -/
def case_call (f : TargetFn) (case : PyVal) : Except PyExc CallRes := do
  let call ← pySubscript case "call"
  let args := process_args (← pyDictGet call "args" (.vlist .nil))
  let kwargs := process_args (← pyDictGet call "kwargs" (.vdict .nil))
  let argList ← iterElems args
  let kwargList ← asKwargs kwargs
  return f argList kwargList

/-- The string id of a case dict, when it has one. -/
def idOf? (case : PyVal) : Option String :=
  match case with
  | .vdict d =>
      match d.lookup "id" with
      | some (.vstr s) => some s
      | _ => none
  | _ => none

mutual

/-- No NaN anywhere inside a value. -/
def nanFree : PyVal → Bool
  | .vfloat f => !f.isnan
  | .vcomplex re im => !(re.isnan || im.isnan)
  | .vlist l => nanFreeL l
  | .vdict d => nanFreeD d
  | _ => true

/-- No NaN anywhere inside a list. -/
def nanFreeL : PyList → Bool
  | .nil => true
  | .cons v tl => nanFree v && nanFreeL tl

/-- No NaN anywhere inside the values of a dict. -/
def nanFreeD : PyDict → Bool
  | .nil => true
  | .cons _ v tl => nanFree v && nanFreeD tl

end

/-- An actual outcome whose synthesized expectation re-validates against
the same outcome: any float (NaN and the infinities go to the
classification predicates, finite floats to a reflexive isclose), the
NaN-free scalars, and NaN-free containers that a raises synthesis cannot
mistake for a recorded exception.  Complex values are excluded (their
synthesis fails or their predicate application raises), as are values
containing NaN inside a container (NaN is unequal to itself under the
equals comparison) and dicts carrying an `exception` key (the synthesis
reads them as raised errors). -/
def stableActual : PyVal → Bool
  | .vfloat _ => true
  | .vcomplex _ _ => false
  | .vdict dd => !dd.hasKey "exception" && nanFreeD dd
  | .vlist l => nanFreeL l
  | _ => true

/-- A case on which a second correction pass is stable: its call either
raises, or returns a stable value that is also what any validation of the
case records as the actual (the latter rules out exceptions swallowed
inside expectation checking, whose recorded actual is the exception, not
the returned value). -/
def StableCase (tol : ℚ) (f : TargetFn) (case : PyVal) : Prop :=
  (∃ ex, case_call f case = .ok (.exc ex)) ∨
  (∃ v, case_call f case = .ok (.ret v) ∧ stableActual v = true ∧
    ∀ r, validate_case tol f case = .ok r → r.actual = some v)

/-! ## Theorems -/

/-- A list on which the last-dot splitter fails has no dot. -/
theorem rsplitDotAux_none (cs : List Char) (h : rsplitDotAux cs = none) :
    '.' ∉ cs := by
  induction cs with
  | nil => simp
  | cons c tl ih =>
      unfold rsplitDotAux at h
      rcases htl : rsplitDotAux tl with _ | p
      · rw [htl] at h
        by_cases hc : c = '.'
        · rw [if_pos hc] at h; cases h
        · rw [if_neg hc] at h
          intro hmem
          rcases List.mem_cons.mp hmem with he | he
          · exact hc he.symm
          · exact ih htl he
      · rw [htl] at h; cases h

/-- The last-dot splitter reassembles to the original list, and the part
after the split is dot-free. -/
theorem rsplitDotAux_eq (cs m f : List Char) (h : rsplitDotAux cs = some (m, f)) :
    cs = m ++ '.' :: f ∧ '.' ∉ f := by
  induction cs generalizing m f with
  | nil => cases h
  | cons c tl ih =>
      unfold rsplitDotAux at h
      rcases htl : rsplitDotAux tl with _ | ⟨m', f'⟩
      · rw [htl] at h
        by_cases hc : c = '.'
        · rw [if_pos hc] at h
          cases h
          subst hc
          exact ⟨rfl, rsplitDotAux_none tl htl⟩
        · rw [if_neg hc] at h; cases h
      · rw [htl] at h
        simp only [Option.some.injEq, Prod.mk.injEq] at h
        obtain ⟨hm, hf⟩ := h
        subst hm
        subst hf
        obtain ⟨h1, h2⟩ := ih m' f' htl
        exact ⟨by rw [h1]; rfl, h2⟩

/-- A split at the last dot reassembles to the original string, and the
function part is dot-free. -/
theorem rsplitDot_eq (s m f : String) (h : rsplitDot s = some (m, f)) :
    s.data = m.data ++ '.' :: f.data ∧ '.' ∉ f.data := by
  unfold rsplitDot at h
  rcases haux : rsplitDotAux s.data with _ | ⟨md, fd⟩
  · rw [haux] at h; cases h
  · rw [haux] at h
    cases h
    exact rsplitDotAux_eq s.data md fd haux

/-- Helper: resolution of a name of the shape `math.attr` with a dot-free
known attribute. -/
theorem resolve_predicate_math (attr : String) (fn : MathFn)
    (hattr : mathAttr attr = some fn) :
    resolve_predicate (.vstr ("math." ++ attr)) = .ok fn := by
  have : attr = "isnan" ∨ attr = "isinf" ∨ attr = "isfinite" ∨ attr = "floor" ∨
      attr = "ceil" ∨ attr = "trunc" := by
    unfold mathAttr at hattr
    split at hattr <;> simp_all
  rcases this with h | h | h | h | h | h <;> subst h <;>
    (simp only [mathAttr, Option.some.injEq] at hattr; subst hattr; decide)

/-- C6 counterexample input: `math.floor` is not one of the three
numeric-classification predicates, yet it resolves. -/
theorem C6_counterexample :
    resolve_predicate (.vstr "math.floor") = .ok .floor ∧
      MathFn.floor ≠ .isnan ∧ MathFn.floor ≠ .isinf ∧ MathFn.floor ≠ .isfinite := by
  decide

/-- C6 (amended): predicate resolution succeeds exactly for the names
`math.<attr>` where `<attr>` is an attribute of the `math` module (in the
modelled fragment of its attribute table) — the allow list is the whole
module, not just the three numeric-classification predicates. -/
theorem C6_resolution_iff (s : String) :
    (∃ fn, resolve_predicate (.vstr s) = .ok fn) ↔
      (∃ attr fn, s.data = "math.".data ++ attr.data ∧ mathAttr attr = some fn) := by
  constructor
  · rintro ⟨fn, hfn⟩
    simp only [resolve_predicate] at hfn
    split at hfn
    · rename_i m f heq
      split at hfn
      · rename_i hm
        split at hfn
        · rename_i fn' hma
          refine ⟨f, fn', ?_, hma⟩
          obtain ⟨hs, _⟩ := rsplitDot_eq s m f heq
          rw [hs, hm]
          rfl
        · simp at hfn
      · simp at hfn
    · simp at hfn
  · rintro ⟨attr, fn, hs, hattr⟩
    have hsd : s = "math." ++ attr := by
      apply String.ext
      simpa using hs
    rw [hsd]
    exact ⟨fn, resolve_predicate_math attr fn hattr⟩

/-- C6 witness: the equivalence evaluated at the name `math.isfinite`. -/
theorem C6_witness :
    ∃ fn, resolve_predicate (.vstr "math.isfinite") = .ok fn :=
  (C6_resolution_iff "math.isfinite").mpr ⟨"isfinite", .isfinite, by decide, by decide⟩

/-- C7 counterexample input: a file whose text holds a Python float
expression parses only after auto-repair, and the validator writes the
repaired text back to `ir_path` — the bytes change even though only the
validator ran. -/
theorem C7_counterexample :
    (validate_file (1 / 10 ^ 10) divisionResolver "\x7b\"a\": float('nan')\x7d").2 =
      "\x7b\"a\": \"NaN\"\x7d" ∧
    "\x7b\"a\": \"NaN\"\x7d" ≠ "\x7b\"a\": float('nan')\x7d" := by
  decide

/-- C7 (amended): the validator leaves the bytes at `ir_path` unchanged
whenever the file is valid JSON, and in general the only write it performs
is the syntax-repair write-back: the final bytes are either the original
content or the repaired text, the latter exactly when the original did not
parse, the fixer changed it, and the repaired text parses. -/
theorem C7_validator_write (tol : ℚ) (res : Resolver) (content : String) :
    (∀ irData, jsonParse content = some irData →
      validate_file tol res content = (validate_parsed tol res irData, content)) ∧
    ((validate_file tol res content).2 = content ∨
      ((validate_file tol res content).2 = (fix_python_float_expressions content).1 ∧
        jsonParse content = none ∧
        (fix_python_float_expressions content).2 = true ∧
        (jsonParse (fix_python_float_expressions content).1).isSome)) := by
  constructor
  · intro irData hp
    unfold validate_file
    rw [hp]
  · rcases hp : jsonParse content with _ | irData
    · rcases hfix : fix_python_float_expressions content with ⟨fixed, wasFixed⟩
      cases wasFixed
      · left; simp [validate_file, hp, hfix]
      · rcases hp2 : jsonParse fixed with _ | irData2
        · left; simp [validate_file, hp, hfix, hp2]
        · right; simp [validate_file, hp, hfix, hp2]
    · left; simp [validate_file, hp]

/-- C7 witness: the no-write conjunct evaluated on a parseable file. -/
theorem C7_witness :
    validate_file (1 / 10 ^ 10) divisionResolver "[]" =
      (validate_parsed (1 / 10 ^ 10) divisionResolver (.vlist .nil), "[]") :=
  (C7_validator_write (1 / 10 ^ 10) divisionResolver "[]").1 (.vlist .nil) (by decide)

/-- C10 counterexample input: decoding the five-character string
`""a""` strips one quote layer, leaving `"a"`, which itself both begins
and ends with a double quote. -/
theorem C10_counterexample :
    process_args (.vstr "\"\"a\"\"") = .vstr "\"a\"" ∧
    "\"a\"".data.head? = some '"' ∧ "\"a\"".data.getLast? = some '"' := by
  decide

/-- C10 (amended): every string argument that begins and ends with a double
quote — the sentinel and `float(`/`int(`/`str(` exclusions are automatic,
since those spellings do not start with a quote — is returned with its first
and last characters removed.  One layer only: the result may itself begin
and end with a double quote. -/
theorem C10_quote_strip (s : String) (h1 : s.data.head? = some '"')
    (h2 : s.data.getLast? = some '"') :
    process_args (.vstr s) = .vstr (stripEnds s) := by
  obtain ⟨rest, hsd⟩ : ∃ rest, s.data = '"' :: rest := by
    rcases hd : s.data with _ | ⟨c, tl⟩
    · rw [hd] at h1; cases h1
    · rw [hd] at h1
      simp only [List.head?_cons, Option.some.injEq] at h1
      exact ⟨tl, by rw [h1]⟩
  have hne1 : s ≠ "NaN" := by
    intro h; rw [h] at hsd; simp at hsd
  have hne2 : s ≠ "Infinity" := by
    intro h; rw [h] at hsd; simp at hsd
  have hne3 : s ≠ "-Infinity" := by
    intro h; rw [h] at hsd; simp at hsd
  have hpf : startsWithL "float(".data s.data = false := by
    rw [hsd]; simp [startsWithL]
  have hpi : startsWithL "int(".data s.data = false := by
    rw [hsd]; simp [startsWithL]
  have hps : startsWithL "str(".data s.data = false := by
    rw [hsd]; simp [startsWithL]
  have hq1 : startsWithL "\"".data s.data = true := by
    rw [hsd]; simp [startsWithL]
  have hq2 : startsWithL "\"".data s.data.reverse = true := by
    have : s.data.reverse.head? = some '"' := by
      rw [List.head?_reverse]; exact h2
    rcases hr : s.data.reverse with _ | ⟨c, tl⟩
    · rw [hr] at this; cases this
    · rw [hr] at this
      simp only [List.head?_cons, Option.some.injEq] at this
      rw [this]
      simp [startsWithL]
  simp only [process_args, hne1, hne2, hne3, hpf, hpi, hps, hq1, hq2,
    if_false, if_true, Bool.false_or, Bool.or_false, Bool.and_self, if_neg,
    Bool.false_eq_true, Bool.true_and]

/-- C10 witness: the strip evaluated on the quoted string `"xy"`. -/
theorem C10_witness :
    process_args (.vstr "\"xy\"") = .vstr (stripEnds "\"xy\"") :=
  C10_quote_strip "\"xy\"" (by decide) (by decide)

/-- The boolean `math.isclose` computes on finite operands with a
non-negative absolute tolerance, as one inequality: the relative tolerance
stays at its default 1e-09, so closeness is against the larger of the two
tolerances. -/
theorem pyIsClose_fin (a b t : ℚ) (ht : 0 ≤ t) :
    pyIsClose (.fin a) (.fin b) (.fin t) =
      .ok (decide (|a - b| ≤ max t (relTol * max |a| |b|))) := by
  unfold pyIsClose
  rw [if_neg (by simp [FloatV.isNeg, not_lt.mpr ht])]
  congr 1
  by_cases hab : a = b
  · subst hab
    have h0 : |a - a| ≤ max t (relTol * max |a| |a|) := by
      rw [sub_self, abs_zero]
      exact le_max_of_le_left ht
    rw [if_pos (by simp [FloatV.feq])]
    exact (decide_eq_true h0).symm
  · have hd : (FloatV.fin a).feq (.fin b) = false := by
      simp [FloatV.feq, hab]
    rw [hd]
    have hrel : (0:ℚ) ≤ relTol := by norm_num [relTol]
    have hmm : relTol * max |a| |b| = max (relTol * |a|) (relTol * |b|) := by
      rcases max_cases |a| |b| with ⟨hm, hle⟩ | ⟨hm, hle⟩ <;>
        rw [hm] <;> [exact (max_eq_left (by nlinarith)).symm;
          exact (max_eq_right (by nlinarith)).symm]
    simp only [Bool.false_eq_true, if_false, FloatV.isinf, Bool.or_self]
    rw [← Bool.decide_or, ← Bool.decide_or]
    apply decide_eq_decide.mpr
    rw [hmm, le_max_iff, le_max_iff]
    tauto

/-- The equals-comparison tail of `_check_expectation`, for a float actual:
the validity bit is exactly the isclose inequality. -/
theorem isclose_bind_iff (a b t : ℚ) (ht : 0 ≤ t) (msg : String) :
    ((pyIsClose (.fin a) (.fin b) (.fin t)).bind
        (fun bl => if bl then (.ok (true, none) : Except PyExc (Bool × Option String))
          else .ok (false, some msg)) = .ok (true, none)) ↔
      |a - b| ≤ max t (relTol * max |a| |b|) := by
  rw [pyIsClose_fin a b t ht]
  by_cases hP : |a - b| ≤ max t (relTol * max |a| |b|)
  · simp [hP, Except.bind]
  · simp [hP, Except.bind]

/-- C1 counterexample input: with tolerance 0, actual 1000000.0 and expected
1000000.0001 the code marks the case valid although the difference exceeds
the tolerance — the default relative tolerance of `math.isclose` is live,
and the margin (the difference 1e-4 against the relative bound about 1e-3)
dwarfs any double-rounding of the operands, so the inequality holds of the
floating-point program exactly as it holds of the rational model; and with
an integer actual within tolerance of the expected float the code marks the
case invalid (the isclose path requires a float actual). -/
theorem C1_counterexample :
    (check_expectation (1 / 10 ^ 10) (.vfloat (.fin 1000000))
        (mkEquals (.vfloat (.fin (1000000 + 1 / 10000)))
          (some (.vfloat (.fin 0)))) = .ok (true, none) ∧
      ¬(|(1000000 : ℚ) - (1000000 + 1 / 10000)| ≤ 0)) ∧
    (check_expectation (1 / 10 ^ 10) (.vint 1000000)
        (mkEquals (.vfloat (.fin (1000000 + 1 / 10000)))
          (some (.vfloat (.fin (1 / 100))))) =
          .ok (false, some "Values differ: 1000000 != 1000000.0001") ∧
      |(1000000 : ℚ) - (1000000 + 1 / 10000)| ≤ 1 / 100) := by
  decide

/-- C1 (amended).  (a) For a float actual and a numeric expected value with
tolerance `t ≥ 0` (the validator default when the case specifies none), the
case is valid iff `|actual − expected| ≤ max t (1e-09 · max |actual|
|expected|)` — the `math.isclose` criterion with its default relative
tolerance, not the bare absolute comparison.  (b) An integer actual is
compared by Python `==` — exact equality — regardless of the declared
tolerance, which is never even read on that path. -/
theorem C1_equals_isclose (dflt : ℚ) :
    (∀ (a b t : ℚ) (ev : PyVal) (tolSpec : Option PyVal),
      toReal? ev = some (.fin b) →
      (tolSpec = some (.vfloat (.fin t)) ∨ (tolSpec = none ∧ t = dflt)) →
      0 ≤ t →
      ((check_expectation dflt (.vfloat (.fin a)) (mkEquals ev tolSpec) =
          .ok (true, none)) ↔
        |a - b| ≤ max t (relTol * max |a| |b|))) ∧
    (∀ (n : ℤ) (ev : PyVal) (tolSpec : Option PyVal),
      (check_expectation dflt (.vint n) (mkEquals ev tolSpec) =
          .ok (true, none)) ↔
        pyEqb (.vint n) ev = true) := by
  constructor
  · intro a b t ev tolSpec hev htol ht
    have hred : check_expectation dflt (.vfloat (.fin a)) (mkEquals ev tolSpec) =
        check_expectation dflt (.vfloat (.fin a))
          (mkEquals ev (some (.vfloat (.fin t)))) := by
      rcases htol with h | ⟨h, ht'⟩
      · rw [h]
      · subst ht'
        subst h
        cases ev <;> rfl
    rw [hred]
    cases ev
    case vnone => simp [toReal?] at hev
    case vstr s => simp [toReal?] at hev
    case vcomplex re im => simp [toReal?] at hev
    case vlist l => simp [toReal?] at hev
    case vdict d => simp [toReal?] at hev
    case vbool bb =>
      cases bb
      · simp only [toReal?, Bool.false_eq_true, if_false, Option.some.injEq,
          FloatV.fin.injEq] at hev
        rw [← hev]
        exact isclose_bind_iff a 0 t ht _
      · simp only [toReal?, if_true, Option.some.injEq, FloatV.fin.injEq] at hev
        rw [← hev]
        exact isclose_bind_iff a 1 t ht _
    case vint n =>
      simp only [toReal?, Option.some.injEq, FloatV.fin.injEq] at hev
      rw [← hev]
      exact isclose_bind_iff a (n : ℚ) t ht _
    case vfloat f =>
      simp only [toReal?, Option.some.injEq] at hev
      subst hev
      exact isclose_bind_iff a b t ht _
  · intro n ev tolSpec
    have hred : check_expectation dflt (.vint n) (mkEquals ev tolSpec) =
        (if pyEqb (.vint n) ev then .ok (true, none)
         else .ok (false, some ("Values differ: " ++ pyStr (.vint n) ++
           " != " ++ pyStr ev))) := by
      rcases tolSpec with _ | t'
      · rfl
      · rfl
    rw [hred]
    rcases hq : pyEqb (.vint n) ev
    · simp
    · simp

/-- C1 witness: the float equivalence evaluated at actual 1.0, expected 1,
tolerance 0, and the integer exact-equality clause at actual 2, expected
2.0, tolerance 0. -/
theorem C1_witness :
    ((check_expectation (1 / 10 ^ 10) (.vfloat (.fin 1))
        (mkEquals (.vint 1) (some (.vfloat (.fin 0)))) = .ok (true, none)) ↔
      |(1 : ℚ) - 1| ≤ max 0 (relTol * max |(1 : ℚ)| |(1 : ℚ)|)) ∧
    ((check_expectation (1 / 10 ^ 10) (.vint 2)
        (mkEquals (.vfloat (.fin 2)) (some (.vfloat (.fin 0)))) =
          .ok (true, none)) ↔
      pyEqb (.vint 2) (.vfloat (.fin 2)) = true) :=
  ⟨(C1_equals_isclose (1 / 10 ^ 10)).1 1 1 0 (.vint 1) (some (.vfloat (.fin 0)))
      (by decide) (Or.inl rfl) (by norm_num),
   (C1_equals_isclose (1 / 10 ^ 10)).2 2 (.vfloat (.fin 2))
      (some (.vfloat (.fin 0)))⟩

/-- Evaluation of `_validate_case` on a well-shaped case: the field reads
and the argument decoding reduce away, leaving the call to the target and
the classification. -/
theorem validate_case_mkCase (tol : ℚ) (f : TargetFn) (cid : String)
    (args : PyList) (exp : PyVal) :
    validate_case tol f (mkCase cid args exp) =
      match f (processArgsL args).toList [] with
      | .ret actual =>
          match check_expectation tol actual exp with
          | .ok (valid, reason) =>
              .ok { case_id := .vstr cid, valid := valid, actual := some actual,
                    expected := some exp, reason := some reason }
          | .error e => handleCaseExc (.vstr cid) exp e
      | .exc e => handleCaseExc (.vstr cid) exp e := by
  rfl

/-- Evaluation of `_check_expectation` on a predicate expectation. -/
theorem check_expectation_predicate (tol : ℚ) (actual : PyVal) (pname : String) :
    check_expectation tol actual (predicateExp pname) =
      (resolve_predicate (.vstr pname)).bind (fun pred =>
        (applyMath pred actual).bind (fun r =>
          if pyTruthy r then .ok (true, none)
          else .ok (false, some ("Predicate " ++ pname ++ " failed for value " ++
            pyStr actual)))) := by
  rfl

/-- Evaluation of `_check_expectation` on a raises expectation after a
normal return. -/
theorem check_expectation_raises (tol : ℚ) (actual : PyVal) (types : PyList) :
    check_expectation tol actual (mkRaises types) =
      .ok (false, some "Expected exception but function returned normally") := by
  rfl

/-- Evaluation of the exception handler under a raises expectation. -/
theorem handleCaseExc_raises (cid : PyVal) (types : PyList) (e : PyExc) :
    handleCaseExc cid (mkRaises types) e =
      (if memEqb types (.vstr e.ename) then
        .ok { case_id := cid, valid := true, actual := none, expected := none,
              reason := none }
      else
        .ok { case_id := cid, valid := false, actual := some (excDict e.ename),
              expected := some (mkRaises types),
              reason := some (some ("Wrong exception: expected " ++
                pyStr (.vlist types) ++ ", got " ++ e.ename)) }) := by
  rfl

/-- Evaluation of the exception handler under any expectation without a
`raises` key. -/
theorem handleCaseExc_nonraises (cid exp : PyVal) (e : PyExc)
    (h : pyInOp (.vstr "raises") exp = .ok false) :
    handleCaseExc cid exp e =
      .ok { case_id := cid, valid := false, actual := some (excDict e.ename),
            expected := some exp,
            reason := some (some ("Unexpected exception: " ++ e.emsg)) } := by
  unfold handleCaseExc
  rw [h]
  rfl

/-- Evaluation of the case loop on a head case that carries the three
required keys. -/
theorem validate_cases_cons (tol : ℚ) (f : TargetFn) (c : PyVal)
    (rest : List PyVal)
    (h1 : pyInOp (.vstr "id") c = .ok true)
    (h2 : pyInOp (.vstr "call") c = .ok true)
    (h3 : pyInOp (.vstr "expectation") c = .ok true) :
    validate_cases tol f (c :: rest) =
      (liftPy (validate_case tol f c)).bind (fun result =>
        (validate_cases tol f rest).bind (fun tail =>
          .ok (if result.valid then tail else result :: tail))) := by
  conv_lhs => rw [validate_cases]
  rw [h1, h2, h3]
  simp only [liftPy, Bind.bind, Except.bind, Bool.not_true, Bool.false_eq_true,
    if_false, pure, Except.pure]

/-- A list-membership reading of the Python `in` check the exception
handler performs on the declared types. -/
theorem memEqb_iff_exists : ∀ (l : PyList) (x : PyVal),
    memEqb l x = true ↔ ∃ t ∈ l.toList, pyEqb x t = true
  | .nil, x => by simp [memEqb, PyList.toList]
  | .cons v tl, x => by
      have ih := memEqb_iff_exists tl x
      simp only [memEqb, PyList.toList, Bool.or_eq_true, ih, List.mem_cons]
      constructor
      · rintro (h | ⟨t, ht, hp⟩)
        · exact ⟨v, Or.inl rfl, h⟩
        · exact ⟨t, Or.inr ht, hp⟩
      · rintro ⟨t, h | h, hp⟩
        · subst h; exact Or.inl hp
        · exact Or.inr ⟨t, h, hp⟩

/-- C5 counterexample input: a case whose predicate name resolves to
nothing is recorded as an ordinary per-case mismatch — with the swallowed
`ValueError` as its recorded actual — and the run returns normally instead
of failing. -/
theorem C5_counterexample :
    (validate_cases (1 / 10 ^ 10) divideFn
        [mkCase "p" (.cons (.vint 1) (.cons (.vint 1) .nil))
          (predicateExp "no.such")]).map
        (List.map (fun r => (r.valid, r.actual))) =
      .ok [(false, some (excDict "ValueError"))] := by
  decide

/-- C5 (amended): an unresolvable predicate name does not abort the run:
the `ValueError` (or `AttributeError`) it raises is caught by the per-case
exception handler, and the case is recorded as an invalid result whose
actual is the swallowed exception; the validator returns normally. -/
theorem C5_unknown_predicate (tol : ℚ) (f : TargetFn) (cid pname : String)
    (args : PyList) (e : PyExc) (v : PyVal)
    (hres : resolve_predicate (.vstr pname) = .error e)
    (hret : f (processArgsL args).toList [] = .ret v) :
    validate_case tol f (mkCase cid args (predicateExp pname)) =
      .ok { case_id := .vstr cid, valid := false,
            actual := some (excDict e.ename),
            expected := some (predicateExp pname),
            reason := some (some ("Unexpected exception: " ++ e.emsg)) } ∧
    validate_cases tol f [mkCase cid args (predicateExp pname)] =
      .ok [{ case_id := .vstr cid, valid := false,
             actual := some (excDict e.ename),
             expected := some (predicateExp pname),
             reason := some (some ("Unexpected exception: " ++ e.emsg)) }] := by
  have hvc : validate_case tol f (mkCase cid args (predicateExp pname)) =
      .ok { case_id := .vstr cid, valid := false,
            actual := some (excDict e.ename),
            expected := some (predicateExp pname),
            reason := some (some ("Unexpected exception: " ++ e.emsg)) } := by
    rw [validate_case_mkCase, hret]
    simp only [check_expectation_predicate, hres, Except.bind]
    rw [handleCaseExc_nonraises _ _ _ (by rfl)]
  refine ⟨hvc, ?_⟩
  rw [validate_cases_cons tol f _ [] (by rfl) (by rfl) (by rfl), hvc]
  rfl

/-- The exception handler labels its result with the case id it was
given. -/
theorem handleCaseExc_id (cid exp : PyVal) (e : PyExc) (r : VRes)
    (h : handleCaseExc cid exp e = .ok r) : r.case_id = cid := by
  unfold handleCaseExc at h
  simp only [Bind.bind, Except.bind, pure, Except.pure] at h
  repeat' split at h
  all_goals first
    | exact Except.noConfusion h
    | (injection h with h2; rw [← h2])

/-- Every result `_validate_case` returns is labelled with the case's own
`id` field. -/
theorem validate_case_id (tol : ℚ) (f : TargetFn) (c : PyVal) (r : VRes)
    (h : validate_case tol f c = .ok r) : pySubscript c "id" = .ok r.case_id := by
  unfold validate_case at h
  simp only [Bind.bind, Except.bind, pure, Except.pure] at h
  rcases h1 : pySubscript c "id" with e1 | cid <;> rw [h1] at h
  · exact Except.noConfusion h
  · suffices hs : r.case_id = cid by rw [hs]
    repeat' split at h
    all_goals first
      | exact Except.noConfusion h
      | (injection h with h2; rw [← h2]; simp_all)
      | (have hv := handleCaseExc_id _ _ _ _ h; simp_all)

/-- C8: a raises expectation is valid exactly when the target raises an
error whose kind occurs anywhere in the declared `types` list, and a normal
return under a raises expectation is an invalid result whose reason states
that an error was expected. -/
theorem C8_raises_membership (tol : ℚ) (f : TargetFn) (cid : String)
    (args types : PyList) :
    ∃ r, validate_case tol f (mkCase cid args (mkRaises types)) = .ok r ∧
      (r.valid = true ↔
        ∃ e, f (processArgsL args).toList [] = .exc e ∧
          ∃ t ∈ types.toList, pyEqb (.vstr e.ename) t = true) ∧
      (∀ v, f (processArgsL args).toList [] = .ret v →
        r.valid = false ∧
        r.reason = some (some "Expected exception but function returned normally")) := by
  rw [validate_case_mkCase]
  rcases hf : f (processArgsL args).toList [] with v | e <;> dsimp only
  · rw [check_expectation_raises]
    refine ⟨_, rfl, ?_, ?_⟩
    · constructor
      · intro h; simp at h
      · rintro ⟨e, he, _⟩
        cases he
    · intro v' _
      exact ⟨rfl, rfl⟩
  · rw [handleCaseExc_raises]
    by_cases hm : memEqb types (.vstr e.ename) = true
    · rw [if_pos hm]
      refine ⟨_, rfl, ?_, ?_⟩
      · constructor
        · intro _
          exact ⟨e, rfl, (memEqb_iff_exists types _).mp hm⟩
        · intro _; rfl
      · intro v hv
        cases hv
    · rw [if_neg hm]
      refine ⟨_, rfl, ?_, ?_⟩
      · constructor
        · intro h; simp at h
        · rintro ⟨e', he', t, ht, hp⟩
          cases he'
          exact absurd ((memEqb_iff_exists types _).mpr ⟨t, ht, hp⟩) hm
      · intro v hv
        cases hv

/-- C8 witness: the equivalence evaluated on the division scenario, where
dividing by zero raises the declared `ZeroDivisionError`. -/
theorem C8_witness :
    ∃ r, validate_case (1 / 10 ^ 10) divideFn
        (mkCase "z" (.cons (.vint 1) (.cons (.vint 0) .nil))
          (mkRaises (.cons (.vstr "ZeroDivisionError") .nil))) = .ok r ∧
      (r.valid = true ↔
        ∃ e, divideFn (processArgsL (.cons (.vint 1) (.cons (.vint 0) .nil))).toList [] = .exc e ∧
          ∃ t ∈ (PyList.cons (.vstr "ZeroDivisionError") .nil).toList,
            pyEqb (.vstr e.ename) t = true) ∧
      (∀ v, divideFn (processArgsL (.cons (.vint 1) (.cons (.vint 0) .nil))).toList [] = .ret v →
        r.valid = false ∧
        r.reason = some (some "Expected exception but function returned normally")) :=
  C8_raises_membership (1 / 10 ^ 10) divideFn "z"
    (.cons (.vint 1) (.cons (.vint 0) .nil))
    (.cons (.vstr "ZeroDivisionError") .nil)

/-- C2 counterexample input: a one-case document whose case matches its
expectation; `validate` returns the empty list, not one result per case. -/
theorem C2_counterexample :
    validate_parsed (1 / 10 ^ 10) divisionResolver
        (.vdict (.cons "target" (.vstr "division:divide")
          (.cons "cases" (.vlist (.cons (mkCase "pos"
            (.cons (.vint 10) (.cons (.vint 2) .nil))
            (mkEquals (.vfloat (.fin 5)) none)) .nil)) .nil))) = .ok [] ∧
    (PyList.cons (mkCase "pos" (.cons (.vint 10) (.cons (.vint 2) .nil))
        (mkEquals (.vfloat (.fin 5)) none)) .nil).length = 1 := by
  decide

/-- C2 (amended): over cases that carry the three required keys and
validate without an uncaught exception, the returned sequence is exactly
the per-case results restricted to the invalid ones, in document order —
matching cases contribute nothing — and every returned result carries its
case's id. -/
theorem C2_mismatches_only (tol : ℚ) (f : TargetFn) (cases : List PyVal)
    (h : ∀ c ∈ cases,
      pyInOp (.vstr "id") c = .ok true ∧ pyInOp (.vstr "call") c = .ok true ∧
      pyInOp (.vstr "expectation") c = .ok true ∧
      ∃ r, validate_case tol f c = .ok r) :
    validate_cases tol f cases = .ok (cases.filterMap (fun c =>
      match validate_case tol f c with
      | .ok r => if r.valid then none else some r
      | .error _ => none)) ∧
    ∀ c ∈ cases, ∀ r, validate_case tol f c = .ok r →
      pySubscript c "id" = .ok r.case_id := by
  constructor
  · induction cases with
    | nil => rfl
    | cons c rest ih =>
        obtain ⟨h1, h2, h3, r, hr⟩ := h c (List.mem_cons_self c rest)
        rw [validate_cases_cons tol f c rest h1 h2 h3, hr,
          ih (fun c' hc' => h c' (List.mem_cons_of_mem c hc'))]
        simp only [List.filterMap_cons, hr, liftPy, Except.bind, Bind.bind]
        by_cases hv : r.valid <;> simp [hv]
  · intro c _ r hr
    exact validate_case_id tol f c r hr

/-- C2 witness: the characterization evaluated on the division document
with one matching and one mismatching case. -/
theorem C2_witness :
    validate_cases (1 / 10 ^ 10) divideFn
      [mkCase "pos" (.cons (.vint 10) (.cons (.vint 2) .nil))
        (mkEquals (.vfloat (.fin 5)) none),
       mkCase "z" (.cons (.vint 1) (.cons (.vint 0) .nil))
        (mkEquals (.vint 99) none)] =
      .ok ([mkCase "pos" (.cons (.vint 10) (.cons (.vint 2) .nil))
          (mkEquals (.vfloat (.fin 5)) none),
        mkCase "z" (.cons (.vint 1) (.cons (.vint 0) .nil))
          (mkEquals (.vint 99) none)].filterMap (fun c =>
        match validate_case (1 / 10 ^ 10) divideFn c with
        | .ok r => if r.valid then none else some r
        | .error _ => none)) :=
  (C2_mismatches_only (1 / 10 ^ 10) divideFn _
    (by intro c hc; fin_cases hc <;> exact ⟨by decide, by decide, by decide, _, rfl⟩)).1

/-- An invalid result out of the exception handler always carries an actual
and a reason. -/
theorem handleCaseExc_shape (cid exp : PyVal) (e : PyExc) (r : VRes)
    (h : handleCaseExc cid exp e = .ok r) (hv : r.valid = false) :
    r.actual ≠ none ∧ r.reason ≠ none := by
  unfold handleCaseExc at h
  simp only [Bind.bind, Except.bind, pure, Except.pure] at h
  repeat' split at h
  all_goals first
    | exact Except.noConfusion h
    | (injection h with h2; subst h2; revert hv; simp)

/-- An invalid result out of `_validate_case` always carries an actual and
a reason. -/
theorem validate_case_invalid_shape (tol : ℚ) (f : TargetFn) (c : PyVal)
    (r : VRes) (h : validate_case tol f c = .ok r) (hv : r.valid = false) :
    r.actual ≠ none ∧ r.reason ≠ none := by
  unfold validate_case at h
  simp only [Bind.bind, Except.bind, pure, Except.pure] at h
  repeat' split at h
  all_goals first
    | exact Except.noConfusion h
    | (injection h with h2; subst h2; revert hv; simp)
    | exact handleCaseExc_shape _ _ _ _ h hv

/-- Every element of the mismatch list is an invalid result produced by
`_validate_case` on one of the document's cases. -/
theorem validate_cases_mem (tol : ℚ) (f : TargetFn) :
    ∀ (cs : List PyVal) (ms : List VRes), validate_cases tol f cs = .ok ms →
      ∀ m ∈ ms, m.valid = false ∧ ∃ c ∈ cs, validate_case tol f c = .ok m
  | [], ms, h => by
      injection h with h2
      subst h2
      intro m hm
      cases hm
  | c :: rest, ms, h => by
      unfold validate_cases at h
      simp only [Bind.bind, Except.bind, pure, Except.pure, liftPy] at h
      rcases h1 : pyInOp (.vstr "id") c with e1 | b1 <;> rw [h1] at h
      · exact Except.noConfusion h
      cases b1
      · exact Except.noConfusion h
      rcases h2 : pyInOp (.vstr "call") c with e2 | b2 <;> rw [h2] at h
      · exact Except.noConfusion h
      cases b2
      · exact Except.noConfusion h
      rcases h3 : pyInOp (.vstr "expectation") c with e3 | b3 <;> rw [h3] at h
      · exact Except.noConfusion h
      cases b3
      · exact Except.noConfusion h
      rcases hvc : validate_case tol f c with e4 | r <;> rw [hvc] at h
      · exact Except.noConfusion h
      rcases hrest : validate_cases tol f rest with e5 | tail <;> rw [hrest] at h
      · exact Except.noConfusion h
      injection h with h6
      subst h6
      intro m hm
      by_cases hval : r.valid
      · rw [if_pos hval] at hm
        obtain ⟨hm1, cc, hcc, hcc2⟩ := validate_cases_mem tol f rest tail hrest m hm
        exact ⟨hm1, cc, List.mem_cons_of_mem c hcc, hcc2⟩
      · rw [if_neg hval] at hm
        rcases List.mem_cons.mp hm with hm | hm
        · subst hm
          exact ⟨Bool.eq_false_iff.mpr hval, c, List.mem_cons_self c rest, hvc⟩
        · obtain ⟨hm1, cc, hcc, hcc2⟩ := validate_cases_mem tol f rest tail hrest m hm
          exact ⟨hm1, cc, List.mem_cons_of_mem c hcc, hcc2⟩

/-- A successful `validate_parsed` run is a successful case loop over some
resolved target and case list. -/
theorem validate_parsed_ok (tol : ℚ) (res : Resolver) (irData : PyVal)
    (ms : List VRes) (h : validate_parsed tol res irData = .ok ms) :
    ∃ f cs, validate_cases tol f cs = .ok ms := by
  unfold validate_parsed at h
  simp only [Bind.bind, Except.bind, pure, Except.pure, liftPy] at h
  repeat' split at h
  all_goals first
    | exact Except.noConfusion h
    | exact ⟨_, _, h⟩

/-- A successful file-level validation means the file (as left on disk)
parses and its parsed document validates to the returned mismatches. -/
theorem validate_file_ok (tol : ℚ) (res : Resolver) (content : String)
    (ms : List VRes) (st : String)
    (h : validate_file tol res content = (.ok ms, st)) :
    ∃ irData, jsonParse st = some irData ∧
      validate_parsed tol res irData = .ok ms := by
  unfold validate_file at h
  rcases hp : jsonParse content with _ | ir <;> rw [hp] at h
  · rcases hfix : fix_python_float_expressions content with ⟨fixed, wasFixed⟩
    rw [hfix] at h
    dsimp only at h
    cases wasFixed
    · simp only [Bool.false_eq_true, if_false, Prod.mk.injEq] at h
      exact absurd h.1 (by simp)
    · rcases hp2 : jsonParse fixed with _ | ir2 <;> rw [hp2] at h
      · simp only [if_true, Prod.mk.injEq] at h
        exact absurd h.1 (by simp)
      · simp only [if_true, Prod.mk.injEq] at h
        exact ⟨ir2, by rw [← h.2]; exact hp2, h.1⟩
  · simp only [Prod.mk.injEq] at h
    exact ⟨ir, by rw [← h.2]; exact hp, h.1⟩

/-- The mismatch report builds whenever every mismatch carries a reason
key. -/
theorem buildReport_ok :
    ∀ (ms : List VRes), (∀ m ∈ ms, m.reason ≠ none) →
      ∃ rep, buildReport ms = .ok rep
  | [], _ => ⟨[], rfl⟩
  | m :: rest, h => by
      rcases hr : m.reason with _ | r
      · exact absurd hr (h m (List.mem_cons_self m rest))
      · obtain ⟨rep, hrep⟩ := buildReport_ok rest
          (fun m' hm' => h m' (List.mem_cons_of_mem m hm'))
        exact ⟨(m.case_id, r) :: rep, by unfold buildReport; rw [hr, hrep]⟩

/-- Every mismatch a successful file-level validation returns carries a
reason and an actual. -/
theorem validate_file_ms_shape (tol : ℚ) (res : Resolver) (content : String)
    (ms : List VRes) (st : String)
    (h : validate_file tol res content = (.ok ms, st)) :
    ∀ m ∈ ms, m.valid = false ∧ m.actual ≠ none ∧ m.reason ≠ none := by
  obtain ⟨irData, _, hvp⟩ := validate_file_ok tol res content ms st h
  obtain ⟨f, cs, hvc⟩ := validate_parsed_ok tol res irData ms hvp
  intro m hm
  obtain ⟨hval, c, _, hc⟩ := validate_cases_mem tol f cs ms hvc m hm
  obtain ⟨ha, hr⟩ := validate_case_invalid_shape tol f c m hc hval
  exact ⟨hval, ha, hr⟩

/-- C9: the corrector never persists a partial correction: whenever
`correct` fails its own write to `output_path` has not happened, and when a
write does happen it is the single serialization of a document in which
every mismatch was patched through a successful expectation synthesis, with
the run reporting those corrections. -/
theorem C9_single_write (tol : ℚ) (res : Resolver) (content : String) :
    (∀ e, (correct tol res content).result = .error e →
      (correct tol res content).written = none) ∧
    (∀ w, (correct tol res content).written = some w →
      ∃ ms st irData doc k rep,
        validate_file tol res content = (.ok ms, st) ∧ ms ≠ [] ∧
        jsonParse st = some irData ∧
        applyCorrections irData ms = .ok (doc, k) ∧
        w = serializeJson doc ∧
        (correct tol res content).result = .ok ⟨k, ms.length, rep⟩) := by
  unfold correct
  rcases hvf : validate_file tol res content with ⟨r0, st⟩
  rcases r0 with e0 | ms
  · rcases e0 with msg | e <;> dsimp only <;>
      exact ⟨fun _ _ => rfl, fun w hw => Option.noConfusion hw⟩
  · dsimp only
    by_cases hms : ms.isEmpty = true
    · rw [if_pos hms]
      exact ⟨fun e he => Except.noConfusion he, fun w hw => Option.noConfusion hw⟩
    · rw [if_neg hms]
      rcases hp : jsonParse st with _ | irData <;> dsimp only
      · exact ⟨fun _ _ => rfl, fun w hw => Option.noConfusion hw⟩
      · rcases hac : applyCorrections irData ms with e1 | ⟨doc, k⟩ <;> dsimp only
        · exact ⟨fun _ _ => rfl, fun w hw => Option.noConfusion hw⟩
        · have hreasons : ∀ m ∈ ms, m.reason ≠ none := fun m hm =>
            (validate_file_ms_shape tol res content ms st hvf m hm).2.2
          obtain ⟨rep, hrep⟩ := buildReport_ok ms hreasons
          rw [hrep]
          dsimp only
          refine ⟨fun e he => Except.noConfusion he, fun w hw => ?_⟩
          injection hw with hw2
          exact ⟨ms, st, irData, doc, k, rep, rfl,
            by simpa using hms, hp, hac, hw2.symm, rfl⟩

/-- Lookup after inserting a different key. -/
theorem lookup_insertKey_ne : ∀ (d : PyDict) (k k' : String) (v : PyVal),
    k' ≠ k → (d.insertKey k v).lookup k' = d.lookup k'
  | .nil, k, k', v, h => by
      simp only [PyDict.insertKey, PyDict.lookup]
      rw [if_neg (fun hh : k = k' => h hh.symm)]
  | .cons k0 v0 tl, k, k', v, h => by
      simp only [PyDict.insertKey]
      by_cases h0 : k0 = k
      · rw [if_pos h0]
        have hne : k0 ≠ k' := fun hh => h (hh ▸ h0)
        simp only [PyDict.lookup]
        rw [if_neg hne, if_neg hne]
      · rw [if_neg h0]
        simp only [PyDict.lookup]
        by_cases h1 : k0 = k'
        · rw [if_pos h1, if_pos h1]
        · rw [if_neg h1, if_neg h1]
          exact lookup_insertKey_ne tl k k' v h

/-- Lookup after inserting the same key. -/
theorem lookup_insertKey_self : ∀ (d : PyDict) (k : String) (v : PyVal),
    (d.insertKey k v).lookup k = some v
  | .nil, k, v => by simp [PyDict.insertKey, PyDict.lookup]
  | .cons k0 v0 tl, k, v => by
      simp only [PyDict.insertKey]
      by_cases h0 : k0 = k
      · rw [if_pos h0]
        simp [PyDict.lookup, h0]
      · rw [if_neg h0]
        simp only [PyDict.lookup]
        rw [if_neg h0]
        exact lookup_insertKey_self tl k v

/-- Inserting the value a key already holds leaves the dict unchanged. -/
theorem insertKey_self : ∀ (d : PyDict) (k : String) (v : PyVal),
    d.lookup k = some v → d.insertKey k v = d
  | .nil, k, v, h => by cases h
  | .cons k0 v0 tl, k, v, h => by
      simp only [PyDict.lookup] at h
      simp only [PyDict.insertKey]
      by_cases h0 : k0 = k
      · rw [if_pos h0] at h ⊢
        injection h with h2
        rw [h2]
      · rw [if_neg h0] at h ⊢
        rw [insertKey_self tl k v h]

/-- Re-inserting at a key overwrites the earlier insert. -/
theorem insertKey_insertKey : ∀ (d : PyDict) (k : String) (v w : PyVal),
    (d.insertKey k v).insertKey k w = d.insertKey k w
  | .nil, k, v, w => by simp [PyDict.insertKey]
  | .cons k0 v0 tl, k, v, w => by
      simp only [PyDict.insertKey]
      by_cases h0 : k0 = k
      · rw [if_pos h0]
        simp [PyDict.insertKey, h0]
      · rw [if_neg h0]
        simp only [PyDict.insertKey]
        rw [if_neg h0, if_neg h0, insertKey_insertKey tl k v w]

mutual

/-- Python equality is reflexive on NaN-free values. -/
theorem pyEqb_refl : ∀ (v : PyVal), nanFree v = true → pyEqb v v = true
  | .vnone, _ => rfl
  | .vbool b, _ => by cases b <;> rfl
  | .vint n, _ => by simp [pyEqb, numC, FloatV.feq]
  | .vfloat f, h => by
      cases f with
      | nan => simp [nanFree, FloatV.isnan] at h
      | inf => rfl
      | ninf => rfl
      | fin q => simp [pyEqb, numC, FloatV.feq]
  | .vstr s, _ => by simp [pyEqb]
  | .vcomplex re im, h => by
      simp only [nanFree, Bool.not_eq_true', Bool.or_eq_false_iff] at h
      simp [pyEqb, numC, FloatV.feq]
      cases re with
      | nan => simp [FloatV.isnan] at h
      | inf => simp [FloatV.feq]; cases im with
          | nan => simp [FloatV.isnan] at h
          | inf => simp [FloatV.feq]
          | ninf => simp [FloatV.feq]
          | fin q => simp [FloatV.feq]
      | ninf => simp [FloatV.feq]; cases im with
          | nan => simp [FloatV.isnan] at h
          | inf => simp [FloatV.feq]
          | ninf => simp [FloatV.feq]
          | fin q => simp [FloatV.feq]
      | fin q => simp [FloatV.feq]; cases im with
          | nan => simp [FloatV.isnan] at h
          | inf => simp [FloatV.feq]
          | ninf => simp [FloatV.feq]
          | fin q2 => simp [FloatV.feq]
  | .vlist l, h => pyEqbL_refl l h
  | .vdict d, h => pyEqbD_refl d h

/-- List equality is reflexive on NaN-free lists. -/
theorem pyEqbL_refl : ∀ (l : PyList), nanFreeL l = true → pyEqbL l l = true
  | .nil, _ => rfl
  | .cons v tl, h => by
      simp only [nanFreeL, Bool.and_eq_true] at h
      simp only [pyEqbL, Bool.and_eq_true]
      exact ⟨pyEqb_refl v h.1, pyEqbL_refl tl h.2⟩

/-- Dict equality is reflexive on NaN-free dicts. -/
theorem pyEqbD_refl : ∀ (d : PyDict), nanFreeD d = true → pyEqbD d d = true
  | .nil, _ => rfl
  | .cons k v tl, h => by
      simp only [nanFreeD, Bool.and_eq_true] at h
      have h1 := pyEqb_refl v h.1
      have h2 := pyEqbD_refl tl h.2
      simp [pyEqbD, PyDict.lookup, PyDict.erase, h1, h2]

end

/-- Decomposition of `_validate_case` through the decoded call. -/
theorem validate_case_decomp (tol : ℚ) (f : TargetFn) (c : PyVal) :
    validate_case tol f c =
      (pySubscript c "id").bind (fun cid =>
        (pySubscript c "call").bind (fun _ =>
          (pySubscript c "expectation").bind (fun exp =>
            (case_call f c).bind (fun cr =>
              match cr with
              | .ret actual =>
                  match check_expectation tol actual exp with
                  | .ok (valid, reason) =>
                      .ok { case_id := cid, valid := valid, actual := some actual,
                            expected := some exp, reason := some reason }
                  | .error e2 => handleCaseExc cid exp e2
              | .exc e2 => handleCaseExc cid exp e2)))) := by
  unfold validate_case case_call
  rcases h1 : pySubscript c "id" with e | cid
  · rfl
  rcases h2 : pySubscript c "call" with e | call
  · rfl
  rcases h3 : pySubscript c "expectation" with e | exp
  · rfl
  simp only [Bind.bind, Except.bind, pure, Except.pure]
  rcases h4 : pyDictGet call "args" (.vlist .nil) with e | rawArgs
  · rfl
  dsimp only
  rcases h5 : pyDictGet call "kwargs" (.vdict .nil) with e | rawKwargs
  · rfl
  dsimp only
  rcases h6 : iterElems (process_args rawArgs) with e | argList
  · rfl
  dsimp only
  rcases h7 : asKwargs (process_args rawKwargs) with e | kwargList
  · rfl
  rfl

/-- Patching the expectation of a case dict does not change its decoded
call. -/
theorem case_call_patch (f : TargetFn) (d : PyDict) (e : PyVal) :
    case_call f (.vdict (d.insertKey "expectation" e)) = case_call f (.vdict d) := by
  unfold case_call
  simp only [pySubscript, lookup_insertKey_ne d "expectation" "call" e (by decide)]

/-- An invalid result out of the exception handler records the raised kind
as its actual. -/
theorem handleCaseExc_invalid_actual (cid exp : PyVal) (ex : PyExc) (r : VRes)
    (h : handleCaseExc cid exp ex = .ok r) (hv : r.valid = false) :
    r.actual = some (excDict ex.ename) := by
  unfold handleCaseExc at h
  simp only [Bind.bind, Except.bind, pure, Except.pure] at h
  repeat' split at h
  all_goals first
    | exact Except.noConfusion h
    | (injection h with h2; subst h2; revert hv; simp)

/-- Inversion of a successful head step of the case loop. -/
theorem validate_cases_cons_inv (tol : ℚ) (f : TargetFn) (c : PyVal)
    (rest : List PyVal) (ms : List VRes)
    (h : validate_cases tol f (c :: rest) = .ok ms) :
    pyInOp (.vstr "id") c = .ok true ∧ pyInOp (.vstr "call") c = .ok true ∧
    pyInOp (.vstr "expectation") c = .ok true ∧
    ∃ r tail, validate_case tol f c = .ok r ∧
      validate_cases tol f rest = .ok tail ∧
      ms = (if r.valid then tail else r :: tail) := by
  unfold validate_cases at h
  simp only [Bind.bind, Except.bind, pure, Except.pure, liftPy] at h
  rcases h1 : pyInOp (.vstr "id") c with e1 | b1 <;> rw [h1] at h
  · exact Except.noConfusion h
  cases b1
  · exact Except.noConfusion h
  rcases h2 : pyInOp (.vstr "call") c with e2 | b2 <;> rw [h2] at h
  · exact Except.noConfusion h
  cases b2
  · exact Except.noConfusion h
  rcases h3 : pyInOp (.vstr "expectation") c with e3 | b3 <;> rw [h3] at h
  · exact Except.noConfusion h
  cases b3
  · exact Except.noConfusion h
  rcases hvc : validate_case tol f c with e4 | r <;> rw [hvc] at h
  · exact Except.noConfusion h
  rcases hrest : validate_cases tol f rest with e5 | tail <;> rw [hrest] at h
  · exact Except.noConfusion h
  injection h with h6
  exact ⟨rfl, rfl, rfl, r, tail, rfl, rfl, h6.symm⟩

/-- Reduction of `_check_expectation` on the tolerant equals expectation the
corrector synthesizes from the very value being checked, down to the two
comparison routes of the source (the isclose route for a float actual, the
Python `==` route otherwise). -/
theorem check_expectation_equals_red (tol : ℚ) (a : PyVal) :
    check_expectation tol a (equalsExp a) =
      (if isFloatInst a && isIntOrFloat a then
        match a, toReal? a with
        | .vfloat x, some b =>
            (toFloatArg (.vfloat (.fin (1 / 10 ^ 10)))).bind (fun t =>
              (pyIsClose x b t).bind (fun bl =>
                if bl then .ok (true, none)
                else .ok (false, some ("Values differ: " ++ pyStr a ++ " != " ++
                  pyStr a))))
        | _, _ => .ok (false, some "unreachable")
      else if pyEqb a a then .ok (true, none)
      else .ok (false, some ("Values differ: " ++ pyStr a ++ " != " ++
        pyStr a))) := by
  rfl

/-- A non-float value that Python-equals itself passes the equals
expectation synthesized from it. -/
theorem check_expectation_equals_self (tol : ℚ) (a : PyVal)
    (hfl : isFloatInst a = false) (heq : pyEqb a a = true) :
    check_expectation tol a (equalsExp a) = .ok (true, none) := by
  rw [check_expectation_equals_red, hfl, heq]
  rfl

/-- A finite float passes the equals expectation synthesized from it: the
isclose comparison of a value with itself succeeds. -/
theorem check_expectation_equals_self_float (tol : ℚ) (q : ℚ) :
    check_expectation tol (.vfloat (.fin q))
        (equalsExp (.vfloat (.fin q))) = .ok (true, none) := by
  have h1 : pyIsClose (.fin q) (.fin q) (.fin (1 / 10 ^ 10)) = .ok true := by
    unfold pyIsClose
    rw [show FloatV.isNeg (.fin (1 / 10 ^ 10)) = false from by decide,
      show FloatV.feq (.fin q) (.fin q) = true from by simp [FloatV.feq]]
    rfl
  rw [show check_expectation tol (.vfloat (.fin q)) (equalsExp (.vfloat (.fin q))) =
      (pyIsClose (.fin q) (.fin q) (.fin (1 / 10 ^ 10))).bind (fun bl =>
        if bl then .ok (true, none)
        else .ok (false, some ("Values differ: " ++ pyStr (.vfloat (.fin q)) ++
          " != " ++ pyStr (.vfloat (.fin q))))) from rfl, h1]
  rfl

/-- Whatever the expectation, when the exception handler yields a result
that carries an actual, that actual is the recorded exception dict. -/
theorem handleCaseExc_actual (cid exp : PyVal) (ex : PyExc) (r : VRes)
    (h : handleCaseExc cid exp ex = .ok r) (a : PyVal) (ha : r.actual = some a) :
    a = excDict ex.ename := by
  unfold handleCaseExc at h
  simp only [Bind.bind, Except.bind, pure, Except.pure] at h
  repeat' split at h
  all_goals first
    | exact Except.noConfusion h
    | (injection h with h2; subst h2; simp_all)

/-- The heart of corrector stability: take a case (a dict) whose validation
recorded the actual `a`, and let `e` be the expectation the corrector
synthesizes from `a`.  If the case's call raises — or returns exactly `a`,
`a` being a stable value — then the patched case re-validates as valid,
under the same id. -/
theorem patched_case_valid (tol : ℚ) (f : TargetFn) (d : PyDict) (r : VRes)
    (a e : PyVal)
    (h : validate_case tol f (.vdict d) = .ok r)
    (ha : r.actual = some a)
    (he : create_expectation a = .ok e)
    (hgood : (∃ ex, case_call f (.vdict d) = .ok (.exc ex)) ∨
             (case_call f (.vdict d) = .ok (.ret a) ∧ stableActual a = true)) :
    ∃ r', validate_case tol f (.vdict (d.insertKey "expectation" e)) = .ok r' ∧
      r'.valid = true ∧ r'.case_id = r.case_id := by
  have hpid := validate_case_id tol f (.vdict d) r h
  have hid2 : pySubscript (.vdict (d.insertKey "expectation" e)) "id" =
      pySubscript (.vdict d) "id" := by
    simp only [pySubscript, lookup_insertKey_ne d "expectation" "id" e (by decide)]
  have hcall2 : pySubscript (.vdict (d.insertKey "expectation" e)) "call" =
      pySubscript (.vdict d) "call" := by
    simp only [pySubscript, lookup_insertKey_ne d "expectation" "call" e (by decide)]
  have hexp2 : pySubscript (.vdict (d.insertKey "expectation" e)) "expectation" =
      .ok e := by
    simp only [pySubscript, lookup_insertKey_self]
  rw [validate_case_decomp] at h
  rw [validate_case_decomp, hid2, hcall2, hexp2, case_call_patch]
  rcases h1 : pySubscript (.vdict d) "id" with e1 | cid <;> rw [h1] at h hpid
  · exact Except.noConfusion h
  injection hpid with hcid
  rcases h2 : pySubscript (.vdict d) "call" with e2 | callv <;> rw [h2] at h
  · exact Except.noConfusion h
  rcases h3 : pySubscript (.vdict d) "expectation" with e3 | exp0 <;> rw [h3] at h
  · exact Except.noConfusion h
  rcases h4 : case_call f (.vdict d) with e4 | cr <;> rw [h4] at h
  · exact Except.noConfusion h
  simp only [Except.bind] at h ⊢
  rcases hgood with ⟨ex, hex⟩ | ⟨hret, hstab⟩
  · have h5 := hex.symm.trans h4
    injection h5 with h5
    subst h5
    dsimp only at h ⊢
    have haex := handleCaseExc_actual cid exp0 ex r h a ha
    subst haex
    injection he with he2
    subst he2
    rw [show raisesExp (.vstr ex.ename) = mkRaises (.cons (.vstr ex.ename) .nil)
        from rfl, handleCaseExc_raises,
      show memEqb (.cons (.vstr ex.ename) .nil) (.vstr ex.ename) = true from by
        simp [memEqb, pyEqb], if_pos rfl]
    exact ⟨_, rfl, rfl, hcid⟩
  · have h5 := hret.symm.trans h4
    injection h5 with h5
    subst h5
    dsimp only at h ⊢
    suffices hck : check_expectation tol a e = .ok (true, none) by
      rw [hck]
      exact ⟨_, rfl, rfl, hcid⟩
    clear h ha hret h4
    cases a with
    | vnone =>
        injection he with he2
        subst he2
        exact check_expectation_equals_self tol .vnone rfl (pyEqb_refl _ rfl)
    | vbool b =>
        injection he with he2
        subst he2
        exact check_expectation_equals_self tol (.vbool b) rfl (pyEqb_refl _ rfl)
    | vint n =>
        injection he with he2
        subst he2
        exact check_expectation_equals_self tol (.vint n) rfl (pyEqb_refl _ rfl)
    | vstr s =>
        injection he with he2
        subst he2
        exact check_expectation_equals_self tol (.vstr s) rfl (pyEqb_refl _ rfl)
    | vcomplex re im => simp [stableActual] at hstab
    | vfloat g =>
        cases g with
        | nan =>
            injection he with he2
            subst he2
            rw [check_expectation_predicate]
            rfl
        | inf =>
            injection he with he2
            subst he2
            rw [check_expectation_predicate]
            rfl
        | ninf =>
            injection he with he2
            subst he2
            rw [check_expectation_predicate]
            rfl
        | fin q =>
            injection he with he2
            subst he2
            exact check_expectation_equals_self_float tol q
    | vlist l =>
        injection he with he2
        subst he2
        exact check_expectation_equals_self tol (.vlist l) rfl (pyEqb_refl _ hstab)
    | vdict dd =>
        simp only [stableActual, Bool.and_eq_true, Bool.not_eq_true'] at hstab
        obtain ⟨hk, hnf⟩ := hstab
        unfold create_expectation at he
        dsimp only at he
        rw [hk] at he
        simp only [Bool.false_eq_true, if_false, Except.ok.injEq] at he
        subst he
        exact check_expectation_equals_self tol (.vdict dd) rfl (pyEqb_refl _ hnf)

/-- A successful string subscription means the container is a dict with the
key bound. -/
theorem pySubscript_ok_vdict (c : PyVal) (k : String) (v : PyVal)
    (h : pySubscript c k = .ok v) :
    ∃ dd, c = .vdict dd ∧ dd.lookup k = some v := by
  cases c
  case vdict dd =>
    simp only [pySubscript] at h
    rcases hl : dd.lookup k with _ | w <;> rw [hl] at h
    · exact Except.noConfusion h
    · injection h with h2
      exact ⟨dd, rfl, by rw [hl, h2]⟩
  all_goals exact Except.noConfusion h

/-- Key membership after inserting a different key. -/
theorem hasKey_insertKey_ne (d : PyDict) (k k' : String) (v : PyVal)
    (h : k' ≠ k) : (d.insertKey k v).hasKey k' = d.hasKey k' := by
  simp only [PyDict.hasKey, lookup_insertKey_ne d k k' v h]

/-- The inserted key is always a member. -/
theorem hasKey_insertKey_self (d : PyDict) (k : String) (v : PyVal) :
    (d.insertKey k v).hasKey k = true := by
  simp only [PyDict.hasKey, lookup_insertKey_self, Option.isSome_some]

/-- A case with a string id subscribes to it. -/
theorem idOf?_subscript (c : PyVal) (s : String) (h : idOf? c = some s) :
    pySubscript c "id" = .ok (.vstr s) := by
  cases c
  case vdict dd =>
    simp only [idOf?] at h
    split at h
    next s3 heq =>
      injection h with h2
      subst h2
      simp [pySubscript, heq]
    next => exact Option.noConfusion h
  all_goals exact Option.noConfusion h

/-- Expectation synthesis succeeds on every stable actual. -/
theorem stable_create_ok (a : PyVal) (h : stableActual a = true) :
    ∃ e, create_expectation a = .ok e := by
  cases a with
  | vnone => exact ⟨_, rfl⟩
  | vbool b => exact ⟨_, rfl⟩
  | vint n => exact ⟨_, rfl⟩
  | vstr s => exact ⟨_, rfl⟩
  | vcomplex re im => simp [stableActual] at h
  | vfloat g =>
      cases g with
      | nan => exact ⟨_, rfl⟩
      | inf => exact ⟨_, rfl⟩
      | ninf => exact ⟨_, rfl⟩
      | fin q => exact ⟨_, rfl⟩
  | vlist l => exact ⟨_, rfl⟩
  | vdict dd =>
      simp only [stableActual, Bool.and_eq_true, Bool.not_eq_true'] at h
      refine ⟨equalsExp (.vdict dd), ?_⟩
      unfold create_expectation
      dsimp only
      rw [h.1]
      rfl

/-- When the case's call raises, the actual a validation result records is
the exception dict of the raised kind. -/
theorem validate_case_exc_actual (tol : ℚ) (f : TargetFn) (c : PyVal)
    (r : VRes) (ex : PyExc) (a : PyVal)
    (h : validate_case tol f c = .ok r) (hex : case_call f c = .ok (.exc ex))
    (ha : r.actual = some a) : a = excDict ex.ename := by
  rw [validate_case_decomp, hex] at h
  rcases h1 : pySubscript c "id" with e1 | cid <;> rw [h1] at h
  · exact Except.noConfusion h
  rcases h2 : pySubscript c "call" with e2 | cv <;> rw [h2] at h
  · exact Except.noConfusion h
  rcases h3 : pySubscript c "expectation" with e3 | exp0 <;> rw [h3] at h
  · exact Except.noConfusion h
  simp only [Except.bind] at h
  exact handleCaseExc_actual cid exp0 ex r h a ha

/-- The per-mismatch scan leaves a head case alone whenever no mismatch in
play carries its id, across a whole mismatch list. -/
theorem applyMs_skip_head (c cid : PyVal) :
    ∀ (ms : List VRes) (tl : PyList), pySubscript c "id" = .ok cid →
      (∀ m ∈ ms, pyEqb cid m.case_id = false) →
      applyMs (.cons c tl) ms =
        (match applyMs tl ms with
         | .error e => .error e
         | .ok (tl2, k) => .ok (.cons c tl2, k))
  | [], tl, hid, hne => rfl
  | m :: rest, tl, hid, hne => by
      have hpc : patchCases (.cons c tl) m =
          (match patchCases tl m with
           | .error e => .error e
           | .ok (tl2, k) => .ok (.cons c tl2, k)) := by
        conv_lhs => rw [patchCases]
        rw [hid]
        dsimp only
        rw [hne m (List.mem_cons_self m rest)]
        rfl
      simp only [applyMs]
      rw [hpc]
      rcases hp : patchCases tl m with e | ⟨tl2, k⟩
      · rfl
      · dsimp only
        rw [applyMs_skip_head c cid rest tl2 hid
          (fun m' hm' => hne m' (List.mem_cons_of_mem m hm'))]
        rcases ha2 : applyMs tl2 rest with e | ⟨tl3, k2⟩
        · rfl
        · rfl

/-- The document-level correction loop is the cases-level fold wrapped in a
single re-insertion of the cases key. -/
theorem applyCorrections_applyMs :
    ∀ (ms : List VRes) (dd : PyDict) (cs : PyList),
      dd.lookup "cases" = some (.vlist cs) →
      applyCorrections (.vdict dd) ms =
        (match applyMs cs ms with
         | .error e => .error e
         | .ok (cs2, k) => .ok (.vdict (dd.insertKey "cases" (.vlist cs2)), k))
  | [], dd, cs, h => by
      dsimp only [applyCorrections, applyMs]
      rw [insertKey_self dd "cases" (.vlist cs) h]
  | m :: rest, dd, cs, h => by
      have hsub : pySubscript (.vdict dd) "cases" = .ok (.vlist cs) := by
        simp [pySubscript, h]
      unfold applyCorrections
      rw [hsub, applyMs]
      dsimp only
      rcases hp : patchCases cs m with e | ⟨cs2, k⟩
      · rfl
      · dsimp only [setKey]
        rw [applyCorrections_applyMs rest (dd.insertKey "cases" (.vlist cs2)) cs2
          (lookup_insertKey_self dd "cases" (.vlist cs2))]
        rcases ha : applyMs cs2 rest with e2 | ⟨cs3, k2⟩
        · rfl
        · dsimp only
          rw [insertKey_insertKey dd "cases" (.vlist cs2) (.vlist cs3)]

/-- The correction fixpoint: when the case loop reported the mismatches
`ms` over cases with distinct string ids, every case being stable, the
cases that come out of the patch fold re-validate with zero mismatches. -/
theorem applyMs_fixpoint (tol : ℚ) (f : TargetFn) :
    ∀ (cs : PyList) (ms : List VRes) (ids : List String),
      validate_cases tol f cs.toList = .ok ms →
      cs.toList.map idOf? = ids.map some →
      ids.Nodup →
      (∀ c ∈ cs.toList, StableCase tol f c) →
      ∀ cs2 k, applyMs cs ms = .ok (cs2, k) →
        validate_cases tol f cs2.toList = .ok []
  | .nil, ms, ids, hv, hids, hnd, hst, cs2, k, hap => by
      injection hv with hms
      subst hms
      injection hap with hap2
      injection hap2 with hap3 hap4
      subst hap3
      rfl
  | .cons c tl, ms, ids, hv, hids, hnd, hst, cs2, k, hap => by
      obtain ⟨h1, h2, h3, r, tail, hvc, hvtl, hmseq⟩ :=
        validate_cases_cons_inv tol f c tl.toList ms hv
      cases ids with
      | nil => simp [List.map] at hids
      | cons id0 ids' =>
      simp only [PyList.toList, List.map] at hids
      injection hids with hid0 hids'
      rw [List.nodup_cons] at hnd
      obtain ⟨hnotin, hnd'⟩ := hnd
      have hsubc : pySubscript c "id" = .ok (.vstr id0) := idOf?_subscript c id0 hid0
      have htail_ids : ∀ m ∈ tail, ∃ id', id' ∈ ids' ∧ m.case_id = .vstr id' := by
        intro m hm
        obtain ⟨hmv, c', hc', hvc'⟩ := validate_cases_mem tol f tl.toList tail hvtl m hm
        have hmem : idOf? c' ∈ tl.toList.map idOf? := List.mem_map_of_mem idOf? hc'
        rw [hids'] at hmem
        obtain ⟨id', hid'mem, hideq⟩ := List.mem_map.mp hmem
        have hsub' : pySubscript c' "id" = .ok (.vstr id') :=
          idOf?_subscript c' id' hideq.symm
        have hcid' := validate_case_id tol f c' m hvc'
        rw [hsub'] at hcid'
        injection hcid' with h9
        exact ⟨id', hid'mem, h9.symm⟩
      have hne_tail : ∀ m ∈ tail, pyEqb (.vstr id0) m.case_id = false := by
        intro m hm
        obtain ⟨id', hmem, hcid⟩ := htail_ids m hm
        rw [hcid]
        simp only [pyEqb, decide_eq_false_iff_not]
        exact fun hq => hnotin (hq ▸ hmem)
      have hstl : ∀ c'' ∈ tl.toList, StableCase tol f c'' :=
        fun c'' hc'' => hst c'' (List.mem_cons_of_mem c hc'')
      by_cases hrv : r.valid = true
      · rw [if_pos hrv] at hmseq
        subst hmseq
        rw [applyMs_skip_head c (.vstr id0) ms tl hsubc hne_tail] at hap
        rcases hat : applyMs tl ms with e | ⟨tl2, k'⟩ <;> rw [hat] at hap
        · exact Except.noConfusion hap
        dsimp only at hap
        injection hap with hap2
        injection hap2 with hap3 hap4
        subst hap3
        have hfix := applyMs_fixpoint tol f tl ms ids' hvtl hids' hnd' hstl tl2 k' hat
        rw [show (PyList.cons c tl2).toList = c :: tl2.toList from rfl,
          validate_cases_cons tol f c tl2.toList h1 h2 h3, hvc, hfix]
        simp [liftPy, Except.bind, hrv]
      · have hrv' : r.valid = false := by revert hrv; cases r.valid <;> simp
        rw [if_neg hrv] at hmseq
        subst hmseq
        obtain ⟨hana, hrna⟩ := validate_case_invalid_shape tol f c r hvc hrv'
        rcases hact : r.actual with _ | a
        · exact absurd hact hana
        obtain ⟨dcase, hceq, hlook⟩ := pySubscript_ok_vdict c "id" (.vstr id0) hsubc
        subst hceq
        have hpack : ∃ e, create_expectation a = .ok e ∧
            ((∃ ex, case_call f (.vdict dcase) = .ok (.exc ex)) ∨
             (case_call f (.vdict dcase) = .ok (.ret a) ∧ stableActual a = true)) := by
          rcases hst (.vdict dcase) (List.mem_cons_self _ _) with
            ⟨ex, hex⟩ | ⟨v, hret, hstab, hall⟩
          · have haex := validate_case_exc_actual tol f (.vdict dcase) r ex a hvc hex hact
            refine ⟨raisesExp (.vstr ex.ename), ?_, Or.inl ⟨ex, hex⟩⟩
            rw [haex]
            rfl
          · have hva := hall r hvc
            rw [hact] at hva
            injection hva with hva
            subst hva
            obtain ⟨e, he⟩ := stable_create_ok a hstab
            exact ⟨e, he, Or.inr ⟨hret, hstab⟩⟩
        obtain ⟨e, he, hgood⟩ := hpack
        have hrcid : r.case_id = .vstr id0 := by
          have h9 := validate_case_id tol f (.vdict dcase) r hvc
          rw [hsubc] at h9
          injection h9 with h9
          exact h9.symm
        have hpc : patchCases (.cons (.vdict dcase) tl) r =
            .ok (.cons (.vdict (dcase.insertKey "expectation" e)) tl, 1) := by
          conv_lhs => rw [patchCases]
          rw [hsubc]
          dsimp only
          rw [hrcid, show pyEqb (.vstr id0) (.vstr id0) = true from by simp [pyEqb],
            if_pos rfl, hact]
          dsimp only
          rw [he]
          rfl
        rw [applyMs] at hap
        rw [hpc] at hap
        dsimp only at hap
        have hsubp : pySubscript (.vdict (dcase.insertKey "expectation" e)) "id" =
            .ok (.vstr id0) := by
          simp [pySubscript, lookup_insertKey_ne dcase "expectation" "id" e (by decide),
            hlook]
        rw [applyMs_skip_head (.vdict (dcase.insertKey "expectation" e)) (.vstr id0)
          tail tl hsubp hne_tail] at hap
        rcases hat : applyMs tl tail with e2 | ⟨tl2, k2⟩ <;> rw [hat] at hap
        · exact Except.noConfusion hap
        dsimp only at hap
        injection hap with hap2
        injection hap2 with hap3 hap4
        subst hap3
        have hfix := applyMs_fixpoint tol f tl tail ids' hvtl hids' hnd' hstl tl2 k2 hat
        obtain ⟨r', hr', hr'valid, hr'cid⟩ :=
          patched_case_valid tol f dcase r a e hvc hact he hgood
        have hKid : dcase.hasKey "id" = true := by
          simpa only [pyInOp, Except.ok.injEq] using h1
        have hKcall : dcase.hasKey "call" = true := by
          simpa only [pyInOp, Except.ok.injEq] using h2
        have h1' : pyInOp (.vstr "id") (.vdict (dcase.insertKey "expectation" e)) =
            .ok true := by
          simp only [pyInOp, hasKey_insertKey_ne dcase "expectation" "id" e (by decide),
            hKid]
        have h2' : pyInOp (.vstr "call") (.vdict (dcase.insertKey "expectation" e)) =
            .ok true := by
          simp only [pyInOp, hasKey_insertKey_ne dcase "expectation" "call" e (by decide),
            hKcall]
        have h3' : pyInOp (.vstr "expectation")
            (.vdict (dcase.insertKey "expectation" e)) = .ok true := by
          simp only [pyInOp, hasKey_insertKey_self]
        rw [show (PyList.cons (.vdict (dcase.insertKey "expectation" e)) tl2).toList =
            (.vdict (dcase.insertKey "expectation" e)) :: tl2.toList from rfl,
          validate_cases_cons tol f _ tl2.toList h1' h2' h3', hr', hfix]
        simp [liftPy, Except.bind, hr'valid]

/-- C9 witness: the no-write conjunct evaluated on an unparseable,
unrepairable file, where correction fails. -/
theorem C9_witness :
    (correct (1 / 10 ^ 10) divisionResolver "x").written = none :=
  (C9_single_write (1 / 10 ^ 10) divisionResolver "x").1
    (.cerr "Validation failed: Invalid JSON syntax in IR file") (by decide)

/-- C5 witness: the recording evaluated on a concrete unresolvable name
and target. -/
theorem C5_witness :
    validate_case (1 / 10 ^ 10) (fun _ _ => .ret .vnone)
        (mkCase "w" .nil (predicateExp "isnan")) =
      .ok { case_id := .vstr "w", valid := false,
            actual := some (excDict "ValueError"),
            expected := some (predicateExp "isnan"),
            reason := some (some "Unexpected exception: Cannot resolve predicate: isnan") } :=
  (C5_unknown_predicate (1 / 10 ^ 10) (fun _ _ => .ret .vnone) "w" "isnan" .nil
    ⟨"ValueError", "Cannot resolve predicate: isnan"⟩ .vnone (by decide) rfl).1

/-- A zero-mismatch validation of a dict built by re-inserting corrected
cases, from its components. -/
theorem validate_parsed_build (tol : ℚ) (res : Resolver) (dd2 : PyDict)
    (target : PyVal) (f : TargetFn) (cs2 : PyList)
    (e1 : dd2.hasKey "target" = true)
    (e3 : dd2.lookup "target" = some target)
    (hres : resolveTargetRef res target = .ok f)
    (e4 : dd2.lookup "cases" = some (.vlist cs2))
    (e5 : validate_cases tol f cs2.toList = .ok []) :
    validate_parsed tol res (.vdict dd2) = .ok [] := by
  have p1 : pyInOp (.vstr "target") (.vdict dd2) = .ok true := by
    simp [pyInOp, e1]
  have p2 : pyInOp (.vstr "cases") (.vdict dd2) = .ok true := by
    simp [pyInOp, PyDict.hasKey, e4]
  have p3 : pySubscript (.vdict dd2) "target" = .ok target := by
    simp [pySubscript, e3]
  have p4 : pySubscript (.vdict dd2) "cases" = .ok (.vlist cs2) := by
    simp [pySubscript, e4]
  unfold validate_parsed
  rw [p1, p2]
  simp only [liftPy, Bind.bind, Except.bind, Bool.not_true, Bool.false_eq_true,
    or_self, if_false]
  rw [p3]
  simp only [Except.bind]
  rw [hres]
  simp only [Except.bind]
  rw [p4]
  simp only [Except.bind, iterElems]
  exact e5

/-- C3 counterexample: on the probe document whose case names an
unresolvable predicate, the second correction run is not a no-op — it
performs a write, and the document it leaves behind differs from the one
the first run left, refuting both the idempotence and the
same-final-document halves of the claim. -/
theorem C3_counterexample :
    (correct (1 / 10 ^ 10) divisionResolver
        (afterRun (correct (1 / 10 ^ 10) divisionResolver
          predicateProbeDoc))).written ≠ none ∧
    afterRun (correct (1 / 10 ^ 10) divisionResolver
        (afterRun (correct (1 / 10 ^ 10) divisionResolver predicateProbeDoc))) ≠
      afterRun (correct (1 / 10 ^ 10) divisionResolver predicateProbeDoc) := by
  decide

/-- C3 amended.  (a) Correcting an already-correct document (a parsing one
whose validation yields zero mismatches) returns corrected = 0 and performs
no write, leaving the bytes unchanged.  (b) The two-run half holds only
under stability: when every case of the (distinct-string-id) document
either raises or returns a value that is its own recorded actual and
survives re-synthesis, and the corrected document round-trips through the
JSON codec, the first run writes the patched document and the second run on
it is a strict no-op with a zero outcome — so both runs end on the same
final bytes. -/
theorem C3_zero_and_stable (tol : ℚ) (res : Resolver) :
    (∀ content irData0, jsonParse content = some irData0 →
      validate_parsed tol res irData0 = .ok [] →
      correct tol res content = ⟨.ok ⟨0, 0, []⟩, content, none⟩) ∧
    (∀ (content : String) (ms : List VRes) (st : String) (dd : PyDict)
        (target : PyVal) (f : TargetFn) (cs : PyList) (ids : List String)
        (cs2 : PyList) (k : Nat),
      validate_file tol res content = (.ok ms, st) →
      ms ≠ [] →
      jsonParse st = some (.vdict dd) →
      dd.lookup "target" = some target →
      resolveTargetRef res target = .ok f →
      dd.lookup "cases" = some (.vlist cs) →
      validate_cases tol f cs.toList = .ok ms →
      cs.toList.map idOf? = ids.map some →
      ids.Nodup →
      (∀ c ∈ cs.toList, StableCase tol f c) →
      applyMs cs ms = .ok (cs2, k) →
      jsonParse (serializeJson (.vdict (dd.insertKey "cases" (.vlist cs2)))) =
        some (.vdict (dd.insertKey "cases" (.vlist cs2))) →
      (correct tol res content).written =
        some (serializeJson (.vdict (dd.insertKey "cases" (.vlist cs2)))) ∧
      correct tol res (serializeJson (.vdict (dd.insertKey "cases" (.vlist cs2)))) =
        ⟨.ok ⟨0, 0, []⟩,
         serializeJson (.vdict (dd.insertKey "cases" (.vlist cs2))), none⟩) := by
  constructor
  · intro content irData0 hparse hvp
    have hvf : validate_file tol res content = (.ok [], content) := by
      unfold validate_file
      rw [hparse]
      dsimp only
      rw [hvp]
    unfold correct
    rw [hvf]
    rfl
  · intro content ms st dd target f cs ids cs2 k h1 hne h2 htgt hres h3 hvcs hids
      hnd hstable hap hrt
    have hmse : ms.isEmpty = false := by
      rcases ms with _ | ⟨m, ms'⟩
      · exact absurd rfl hne
      · rfl
    have hKt : dd.hasKey "target" = true := by simp [PyDict.hasKey, htgt]
    have e1 : (dd.insertKey "cases" (.vlist cs2)).hasKey "target" = true := by
      rw [hasKey_insertKey_ne dd "cases" "target" (.vlist cs2) (by decide)]
      exact hKt
    have e3 : (dd.insertKey "cases" (.vlist cs2)).lookup "target" = some target := by
      rw [lookup_insertKey_ne dd "cases" "target" (.vlist cs2) (by decide)]
      exact htgt
    have e4 : (dd.insertKey "cases" (.vlist cs2)).lookup "cases" =
        some (.vlist cs2) := lookup_insertKey_self dd "cases" (.vlist cs2)
    have e5 : validate_cases tol f cs2.toList = .ok [] :=
      applyMs_fixpoint tol f cs ms ids hvcs hids hnd hstable cs2 k hap
    have hvp2 : validate_parsed tol res
        (.vdict (dd.insertKey "cases" (.vlist cs2))) = .ok [] :=
      validate_parsed_build tol res _ target f cs2 e1 e3 hres e4 e5
    constructor
    · unfold correct
      rw [h1]
      dsimp only
      rw [hmse]
      simp only [Bool.false_eq_true, if_false]
      rw [h2]
      dsimp only
      rw [applyCorrections_applyMs ms dd cs h3, hap]
      dsimp only
      rcases hbr : buildReport ms with e | rep <;> rfl
    · have hvf2 : validate_file tol res
          (serializeJson (.vdict (dd.insertKey "cases" (.vlist cs2)))) =
          (.ok [], serializeJson (.vdict (dd.insertKey "cases" (.vlist cs2)))) := by
        unfold validate_file
        rw [hrt]
        dsimp only
        rw [hvp2]
      unfold correct
      rw [hvf2]
      rfl

/-- C3 witness: the stable half evaluated on the zero-division document —
the first run writes the raises-corrected document, and a second run on the
written bytes is a strict no-op. -/
theorem C3_witness :
    (correct (1 / 10 ^ 10) divisionResolver zeroDivDoc).written =
      some (serializeJson (.vdict (zeroDivDict.insertKey "cases"
        (.vlist (.cons zeroDivCasePatched .nil))))) ∧
    correct (1 / 10 ^ 10) divisionResolver
        (serializeJson (.vdict (zeroDivDict.insertKey "cases"
          (.vlist (.cons zeroDivCasePatched .nil))))) =
      ⟨.ok ⟨0, 0, []⟩,
       serializeJson (.vdict (zeroDivDict.insertKey "cases"
         (.vlist (.cons zeroDivCasePatched .nil)))), none⟩ :=
  (C3_zero_and_stable (1 / 10 ^ 10) divisionResolver).2 zeroDivDoc zeroDivMs
    zeroDivDoc zeroDivDict (.vstr "division:divide") divideFn
    (.cons zeroDivCase .nil) ["c1"] (.cons zeroDivCasePatched .nil) 1
    (by decide) (by decide) (by decide) (by decide) rfl (by decide) (by decide)
    (by decide) (by decide)
    (fun c hc => by
      have h9 := List.mem_singleton.mp hc
      subst h9
      exact Or.inl ⟨⟨"ZeroDivisionError", "Cannot divide by zero"⟩, by decide⟩)
    (by decide) (by decide)

/-- C4: the corrector replaces a located mismatched case's expectation with
one synthesized solely from the observed actual, by the exact claimed
mapping — a recorded exception becomes a raises expectation on its kind; a
NaN float, or a complex value with a NaN component, becomes the math.isnan
predicate; an infinite float becomes math.isinf; a NaN-free complex value
fails with a CorrectionError; everything else becomes an equals expectation
on the actual with tolerance 1e-10 — and a failed run performs no write. -/
theorem C4_expectation_synthesis (tol : ℚ) (res : Resolver) :
    (∀ n, create_expectation (excDict n) = .ok (raisesExp (.vstr n))) ∧
    (create_expectation (.vfloat .nan) = .ok (predicateExp "math.isnan")) ∧
    (∀ re im, (re.isnan || im.isnan) = true →
      create_expectation (.vcomplex re im) = .ok (predicateExp "math.isnan")) ∧
    (create_expectation (.vfloat .inf) = .ok (predicateExp "math.isinf")) ∧
    (create_expectation (.vfloat .ninf) = .ok (predicateExp "math.isinf")) ∧
    (∀ re im, (re.isnan || im.isnan) = false →
      create_expectation (.vcomplex re im) =
        .error (.cerr ("Complex number result (" ++ pyStr (.vcomplex re im) ++
          ") cannot be auto-corrected. Manual review needed."))) ∧
    (∀ q, create_expectation (.vfloat (.fin q)) =
      .ok (equalsExp (.vfloat (.fin q)))) ∧
    (∀ d, PyDict.hasKey d "exception" = false →
      create_expectation (.vdict d) = .ok (equalsExp (.vdict d))) ∧
    (∀ a, (∀ g, a ≠ .vfloat g) → (∀ re im, a ≠ .vcomplex re im) →
      (∀ d, a ≠ .vdict d) → create_expectation a = .ok (equalsExp a)) ∧
    (∀ a, equalsExp a = mkEquals a (some (.vfloat (.fin (1 / 10 ^ 10))))) ∧
    (∀ (d : PyDict) (cid : PyVal) (tl : PyList) (m : VRes) (e a : PyVal),
      pySubscript (.vdict d) "id" = .ok cid →
      pyEqb cid m.case_id = true →
      m.actual = some a →
      create_expectation a = .ok e →
      patchCases (.cons (.vdict d) tl) m =
        .ok (.cons (.vdict (d.insertKey "expectation" e)) tl, 1)) ∧
    (∀ (d : PyDict) (cid : PyVal) (tl : PyList) (m : VRes) (err : CErr)
        (a : PyVal),
      pySubscript (.vdict d) "id" = .ok cid →
      pyEqb cid m.case_id = true →
      m.actual = some a →
      create_expectation a = .error err →
      patchCases (.cons (.vdict d) tl) m = .error err) ∧
    (∀ content e0, (correct tol res content).result = .error e0 →
      (correct tol res content).written = none) := by
  refine ⟨fun n => rfl, rfl, ?_, rfl, rfl, ?_, fun q => rfl, ?_, ?_, fun a => rfl,
    ?_, ?_, ?_⟩
  · intro re im h
    simp [create_expectation, h]
  · intro re im h
    simp [create_expectation, h]
  · intro d h
    simp [create_expectation, h]
  · intro a hf hc hd
    cases a with
    | vfloat g => exact absurd rfl (hf g)
    | vcomplex re im => exact absurd rfl (hc re im)
    | vdict d => exact absurd rfl (hd d)
    | vnone => rfl
    | vbool b => rfl
    | vint n => rfl
    | vstr s => rfl
    | vlist l => rfl
  · intro d cid tl m e a hid hpe hact hcr
    conv_lhs => rw [patchCases]
    rw [hid]
    dsimp only
    rw [hpe, if_pos rfl, hact]
    dsimp only
    rw [hcr]
    rfl
  · intro d cid tl m err a hid hpe hact hcr
    conv_lhs => rw [patchCases]
    rw [hid]
    dsimp only
    rw [hpe, if_pos rfl, hact]
    dsimp only
    rw [hcr]
  · intro content e0 he0
    unfold correct at he0 ⊢
    rcases hvf : validate_file tol res content with ⟨r0, st⟩
    rw [hvf] at he0
    rcases r0 with er | ms
    · rcases er with msg | ex <;> rfl
    · dsimp only at he0 ⊢
      by_cases hms : ms.isEmpty = true
      · rw [if_pos hms]
      · rw [if_neg hms] at he0 ⊢
        rcases hp : jsonParse st with _ | irData
        · rfl
        · rw [hp] at he0
          dsimp only at he0 ⊢
          rcases hac : applyCorrections irData ms with e1 | ⟨doc, k⟩
          · rfl
          · rw [hac] at he0
            dsimp only at he0 ⊢
            have hreasons : ∀ m ∈ ms, m.reason ≠ none := fun m hm =>
              (validate_file_ms_shape tol res content ms st hvf m hm).2.2
            obtain ⟨rep, hrep⟩ := buildReport_ok ms hreasons
            rw [hrep] at he0
            exact Except.noConfusion he0

/-- C4 witness: the raises synthesis and in-place patch evaluated on the
zero-division case and its recorded mismatch. -/
theorem C4_witness :
    pyEqb (.vstr "c1") (.vstr "c1") = true ∧
    patchCases (.cons zeroDivCase .nil)
        { case_id := .vstr "c1", valid := false,
          actual := some (excDict "ZeroDivisionError"),
          expected := none, reason := none } =
      .ok (.cons zeroDivCasePatched .nil, 1) :=
  ⟨by decide,
   (C4_expectation_synthesis (1 / 10 ^ 10)
       divisionResolver).2.2.2.2.2.2.2.2.2.2.1
     _ (.vstr "c1") .nil _ (raisesExp (.vstr "ZeroDivisionError"))
     (excDict "ZeroDivisionError") (by decide) (by decide) rfl (by decide)⟩

end IRProc
